import Mathlib

/-!
Verification of the crowBot Query Resolution & Reporting Engine.

This file gives a shallow embedding, in Lean 4, of the parts of the
repository that the specification's claims are about:

* the proleptic-Gregorian calendar arithmetic used by Python's
  `datetime.date` (needed by `app/utils/week_calculator.py` and
  `app/services/query_parser_service.py`);
* `WeekCalculator.get_first_monday_of_month` and
  `WeekCalculator.get_weeks_in_month`;
* the regular-expression driven temporal parsers
  `_parse_multiple_dates`, `_parse_date_range`, `_parse_specific_date`,
  `_parse_specific_month` and the `_keyword_fallback` intent builder of
  `QueryParserService`, together with the `QueryResult` model;
* `ReportService._get_or_fetch_transactions` (the per-year TTL cache)
  and `ReportService.generate_monthly_profit_dataframe`;
* `CapsterService.get_name_alias_map` and the capster filter of
  `ReportService.generate_report_from_query`.

Machine integers are modelled as `Nat`/`Int`; monetary amounts as `ℚ`;
`datetime` values are (year, month, day) triples plus a seconds-in-day
field; `timedelta(days = k)` addition is embedded as `k`-fold calendar
successor (extensionally the arithmetic CPython performs through
`toordinal`/`fromordinal`); fallible code returns `Option`/`Except`.
-/

namespace CrowBot

/-! ### Calendar: the proleptic Gregorian calendar of Python `datetime.date`

`isLeap`, `daysInMonth` follow the standard Gregorian rules used by
CPython's `datetime` module; `toordinal` is `date.toordinal()`
(day number with 0001-01-01 = 1); `weekday` is `date.weekday()`
(Monday = 0 ... Sunday = 6). -/

def isLeap (y : Nat) : Bool :=
  (y % 4 == 0 && y % 100 != 0) || (y % 400 == 0)

def daysInMonth (y : Nat) (m : Nat) : Nat :=
  match m with
  | 1 => 31
  | 2 => if isLeap y then 29 else 28
  | 3 => 31
  | 4 => 30
  | 5 => 31
  | 6 => 30
  | 7 => 31
  | 8 => 31
  | 9 => 30
  | 10 => 31
  | 11 => 30
  | 12 => 31
  | _ => 0

/-- Days in year `y` that precede month `m` (CPython `_days_before_month`). -/
def daysBeforeMonth (y : Nat) (m : Nat) : Nat :=
  match m with
  | 1 => 0
  | 2 => 31
  | 3 => 59 + (if isLeap y then 1 else 0)
  | 4 => 90 + (if isLeap y then 1 else 0)
  | 5 => 120 + (if isLeap y then 1 else 0)
  | 6 => 151 + (if isLeap y then 1 else 0)
  | 7 => 181 + (if isLeap y then 1 else 0)
  | 8 => 212 + (if isLeap y then 1 else 0)
  | 9 => 243 + (if isLeap y then 1 else 0)
  | 10 => 273 + (if isLeap y then 1 else 0)
  | 11 => 304 + (if isLeap y then 1 else 0)
  | 12 => 334 + (if isLeap y then 1 else 0)
  | _ => 0

/-- Days before January 1st of year `y` (CPython `_days_before_year`). -/
def daysBeforeYear (y : Nat) : Nat :=
  365 * (y - 1) + (y - 1) / 4 - (y - 1) / 100 + (y - 1) / 400

/-- A calendar date, as the (year, month, day) triple CPython stores. -/
structure Date where
  year : Nat
  month : Nat
  day : Nat
  deriving DecidableEq, Repr

/-- `date.toordinal()`: 0001-01-01 is day 1. -/
def Date.toordinal (d : Date) : Nat :=
  daysBeforeYear d.year + daysBeforeMonth d.year d.month + d.day

/-- `date.weekday()`: Monday = 0, ..., Sunday = 6. -/
def Date.weekday (d : Date) : Nat :=
  (d.toordinal + 6) % 7

/-- The dates `datetime.date(y, m, d)` accepts (MINYEAR = 1, MAXYEAR = 9999). -/
def Date.Valid (d : Date) : Prop :=
  1 ≤ d.year ∧ d.year ≤ 9999 ∧ 1 ≤ d.month ∧ d.month ≤ 12 ∧
    1 ≤ d.day ∧ d.day ≤ daysInMonth d.year d.month

instance (d : Date) : Decidable d.Valid := by
  unfold Date.Valid; infer_instance

/-- Next calendar day. -/
def Date.succ (d : Date) : Date :=
  if d.day < daysInMonth d.year d.month then ⟨d.year, d.month, d.day + 1⟩
  else if d.month < 12 then ⟨d.year, d.month + 1, 1⟩
  else ⟨d.year + 1, 1, 1⟩

/-- `d + timedelta(days = k)`, embedded as iterated calendar successor. -/
def Date.addDays (d : Date) : Nat → Date
  | 0 => d
  | k + 1 => (d.succ).addDays k

/-- Lexicographic comparison of dates: how CPython compares `datetime` values
with equal time-of-day components. -/
def Date.le (a b : Date) : Bool :=
  (a.year < b.year) ||
    (a.year == b.year && (a.month < b.month ||
      (a.month == b.month && a.day ≤ b.day)))

def Date.lt (a b : Date) : Bool :=
  Date.le a b && !(a == b)

/-- A year bound strong enough to keep `addDays` inside `datetime`'s range
for the week calculator's loop, which looks at most 13 days past a month. -/
def Date.SafeValid (d : Date) : Prop := d.Valid ∧ d.year ≤ 9998

/-! ### WeekCalculator (`app/utils/week_calculator.py`)

`get_first_monday_of_month` and `get_weeks_in_month`, embedded over `Date`.
Time-of-day is carried as a seconds-into-the-day field: the code pins window
starts to 00:00:00 (`secs = 0`) and window ends to 23:59:59 (`secs = 86399`).
The `month_end` local of the Python code is computed but never used, so it
is not embedded.  The display labels (`start_str`/`end_str`, `strftime`
abbreviations of the window bounds) are presentation-only and not embedded.
The `while True` loop is embedded with a fuel parameter; the loop appends at
most five windows (Mondays of one month) and then stops, so fuel 8 is never
exhausted. -/

def get_first_monday_of_month (year month : Nat) : Date :=
  let first_day : Date := ⟨year, month, 1⟩
  let days_until_monday := (7 - first_day.weekday) % 7
  if days_until_monday == 0 && first_day.weekday == 0 then
    first_day
  else
    let first_monday := first_day.addDays days_until_monday
    if first_monday.month ≠ month then first_day else first_monday

structure Week where
  week_num : Nat
  start_date : Date
  start_secs : Nat
  end_date : Date
  end_secs : Nat
  deriving DecidableEq, Repr

def get_weeks_loop (month : Nat) : Nat → Date → Nat → List Week
  | 0, _, _ => []
  | fuel + 1, current_monday, week_num =>
    let current_sunday := current_monday.addDays 6
    if (current_monday.month == month) ||
        ((current_monday.month == month) && (week_num == 1)) then
      let w : Week := ⟨week_num, current_monday, 0, current_sunday, 86399⟩
      let next_monday := current_sunday.addDays 1
      if (next_monday.month != month) && (next_monday.day > 7) then [w]
      else w :: get_weeks_loop month fuel next_monday (week_num + 1)
    else []

def get_weeks_in_month (year month : Nat) : List Week :=
  get_weeks_loop month 8 (get_first_monday_of_month year month) 1

/-- Everything claim C10 asserts of one window. -/
def okWeek (y m : Nat) (w : Week) : Prop :=
  w.start_date.weekday = 0 ∧ w.start_date.year = y ∧ w.start_date.month = m ∧
    w.start_secs = 0 ∧ w.end_date = w.start_date.addDays 6 ∧ w.end_secs = 86399

/-! ### A small backtracking regex engine

`QueryParserService` drives four Python regular expressions.  To embed them
faithfully (greedy quantifiers, ordered alternation, backtracking) we give a
tiny regex engine over `List Char` whose constructors cover exactly the
constructs those patterns use: literals, ordered alternation (tried left to
right), greedy option, greedy character-class star/plus, an exact-count
capturing digit group, and capturing literals (used for the month-name
alternation, which the code builds sorted by length, longest first).
Captures are positional slots, `none` when the group did not participate,
mirroring `match.group(i) is None`.  The matcher works on a defunctionalized
continuation stack with a fuel parameter; every step strictly decreases
`remaining input length + total size of the stack`, so fuel
`input length + pattern size + 2` is never exhausted. -/

inductive Cls where
  | space : Cls
  | digit : Cls
  deriving DecidableEq, Repr

/-- `\s` (the ASCII part Python's `re` recognises) and `\d` (ASCII digits;
the queries handled by the bot are ASCII). -/
def Cls.eval : Cls → Char → Bool
  | .space, c => c == ' ' || c == '\t' || c == '\n' ||
      c == '\r' || c == '\x0b' || c == '\x0c'
  | .digit, c => c.isDigit

inductive RE where
  | eps : RE
  | fail : RE
  | lit : List Char → RE
  | litC : List Char → Nat → RE
  | alt : RE → RE → RE
  | seq : RE → RE → RE
  | opt : RE → RE
  | starC : Cls → RE
  | plusC : Cls → RE
  | digitsC : Nat → Nat → RE
  deriving DecidableEq, Repr

def reSize : RE → Nat
  | .eps => 1
  | .fail => 1
  | .lit _ => 1
  | .litC _ _ => 1
  | .alt a b => 1 + reSize a + reSize b
  | .seq a b => 1 + reSize a + reSize b
  | .opt a => 1 + reSize a
  | .starC _ => 1
  | .plusC _ => 2
  | .digitsC _ _ => 1

/-- Positional capture slots (`match.group(i+1)`). -/
def Caps := List (Option (List Char))

instance : DecidableEq Caps := by
  unfold Caps; infer_instance

def setCap (caps : Caps) (i : Nat) (v : List Char) : Caps :=
  List.set caps i (some v)

/-- The backtracking matcher: match the sequence of patterns `rs` against
`l`, returning the captures and the unconsumed suffix of the first
(in backtracking order) full match. -/
def mseq : Nat → List RE → List Char → Caps → Option (Caps × List Char)
  | 0, _, _, _ => none
  | _ + 1, [], l, caps => some (caps, l)
  | fuel + 1, r :: rs, l, caps =>
    match r with
    | .eps => mseq fuel rs l caps
    | .fail => none
    | .lit s =>
      if s.isPrefixOf l then mseq fuel rs (l.drop s.length) caps else none
    | .litC s i =>
      if s.isPrefixOf l then mseq fuel rs (l.drop s.length) (setCap caps i s)
      else none
    | .alt a b =>
      (mseq fuel (a :: rs) l caps).orElse (fun _ => mseq fuel (b :: rs) l caps)
    | .seq a b => mseq fuel (a :: b :: rs) l caps
    | .opt a =>
      (mseq fuel (a :: rs) l caps).orElse (fun _ => mseq fuel rs l caps)
    | .starC cls =>
      match l with
      | [] => mseq fuel rs [] caps
      | c :: l2 =>
        if cls.eval c then
          (mseq fuel (.starC cls :: rs) l2 caps).orElse
            (fun _ => mseq fuel rs l caps)
        else mseq fuel rs l caps
    | .plusC cls =>
      match l with
      | [] => none
      | c :: l2 =>
        if cls.eval c then mseq fuel (.starC cls :: rs) l2 caps else none
    | .digitsC n i =>
      let ds := l.take n
      if ds.length == n && ds.all Char.isDigit then
        mseq fuel rs (l.drop n) (setCap caps i ds)
      else none

/-- Anchored match attempt at the head of `l`; returns captures and the
number of characters consumed. -/
def runRE (p : RE) (l : List Char) : Option (Caps × Nat) :=
  match mseq (l.length + reSize p + 2) [p] l (List.replicate 6 none) with
  | some (caps, rest) => some (caps, l.length - rest.length)
  | none => none

structure MatchInfo where
  mstart : Nat
  caps : Caps
  mstop : Nat
  deriving DecidableEq

/-- `re.search`: try each start position left to right. -/
def reSearchAux (p : RE) : List Char → Nat → Option MatchInfo
  | [], pos =>
    match runRE p [] with
    | some (caps, len) => some ⟨pos, caps, pos + len⟩
    | none => none
  | l@(_ :: l2), pos =>
    match runRE p l with
    | some (caps, len) => some ⟨pos, caps, pos + len⟩
    | none => reSearchAux p l2 (pos + 1)

def reSearch (p : RE) (l : List Char) : Option MatchInfo :=
  reSearchAux p l 0

/-- `re.finditer`: leftmost non-overlapping matches.  (The guard for
zero-width matches is unreachable for the date patterns, which always
consume at least the day digit.) -/
def reFindAllAux (p : RE) : Nat → List Char → Nat → List MatchInfo
  | 0, _, _ => []
  | fuel + 1, l, pos =>
    match runRE p l with
    | some (caps, len) =>
      if len == 0 then
        match l with
        | [] => [⟨pos, caps, pos⟩]
        | _ :: l2 => ⟨pos, caps, pos⟩ :: reFindAllAux p fuel l2 (pos + 1)
      else ⟨pos, caps, pos + len⟩ :: reFindAllAux p fuel (l.drop len) (pos + len)
    | none =>
      match l with
      | [] => []
      | _ :: l2 => reFindAllAux p fuel l2 (pos + 1)

def reFindAll (p : RE) (l : List Char) : List MatchInfo :=
  reFindAllAux p (l.length + 1) l 0

/-! ### Month vocabulary (`_get_month_map` / `_get_month_pattern`)

`month_map` holds the twelve lower-cased full Indonesian month names from
`MONTHS_ID_REV` plus the abbreviations added by `_get_month_map`.
`monthKeys` lists its keys sorted by length, longest first (Python's
`sorted(keys, key=len, reverse=True)`, which is stable on the dict's
insertion order), exactly the alternation `_get_month_pattern` builds. -/

def month_map (s : String) : Option Nat :=
  if s = "januari" then some 1 else if s = "februari" then some 2
  else if s = "maret" then some 3 else if s = "april" then some 4
  else if s = "mei" then some 5 else if s = "juni" then some 6
  else if s = "juli" then some 7 else if s = "agustus" then some 8
  else if s = "september" then some 9 else if s = "oktober" then some 10
  else if s = "november" then some 11 else if s = "desember" then some 12
  else if s = "jan" then some 1 else if s = "feb" then some 2
  else if s = "mar" then some 3 else if s = "apr" then some 4
  else if s = "jun" then some 6 else if s = "jul" then some 7
  else if s = "agu" then some 8 else if s = "ags" then some 8
  else if s = "aug" then some 8 else if s = "sep" then some 9
  else if s = "okt" then some 10 else if s = "oct" then some 10
  else if s = "nov" then some 11 else if s = "des" then some 12
  else if s = "dec" then some 12
  else none

def monthKeys : List String :=
  ["september",
   "februari", "november", "desember",
   "januari", "agustus", "oktober",
   "maret", "april",
   "juni", "juli",
   "mei", "jan", "feb", "mar", "apr", "jun", "jul", "agu", "ags", "aug",
   "sep", "okt", "oct", "nov", "des", "dec"]

/-- The month-name alternation `({month_names})`, capturing into slot `i`. -/
def monthRE (i : Nat) : RE :=
  monthKeys.foldr (fun k acc => RE.alt (RE.litC k.toList i) acc) RE.fail

/-! ### The four date patterns of `QueryParserService` -/

def seqList : List RE → RE :=
  fun rs => rs.foldr RE.seq RE.eps

def spaces0 : RE := RE.starC Cls.space
def spaces1 : RE := RE.plusC Cls.space

/-- `(\d{1,2})`: greedy, two digits preferred. -/
def dayRE (i : Nat) : RE := RE.alt (RE.digitsC 2 i) (RE.digitsC 1 i)

/-- `(\d{4})?`. -/
def yearOpt (i : Nat) : RE := RE.opt (RE.digitsC 4 i)

/-- `(?:tanggal|tgl)?`. -/
def tglRE : RE := RE.opt (RE.alt (RE.lit "tanggal".toList) (RE.lit "tgl".toList))

/-- `_parse_multiple_dates` pattern: `(\d{1,2})\s+({month_names})\s*(\d{4})?`. -/
def datePatternMulti : RE :=
  seqList [dayRE 0, spaces1, monthRE 1, spaces0, yearOpt 2]

/-- `date_part` of `_parse_date_range` pattern 1 and the `_parse_specific_date`
pattern: `(?:tanggal|tgl)?\s*(\d{1,2})\s+({month_names})\s*(\d{4})?`. -/
def datePart (iD iM iY : Nat) : RE :=
  seqList [tglRE, spaces0, dayRE iD, spaces1, monthRE iM, spaces0, yearOpt iY]

/-- `(?:sampai|hingga|s/?d|s\.d\.|ke|sd|-)` (the separator core of
`_parse_date_range` pattern 1). -/
def sepCoreFull : RE :=
  RE.alt (RE.lit "sampai".toList)
    (RE.alt (RE.lit "hingga".toList)
      (RE.alt (seqList [RE.lit "s".toList, RE.opt (RE.lit "/".toList),
        RE.lit "d".toList])
        (RE.alt (RE.lit "s.d.".toList)
          (RE.alt (RE.lit "ke".toList)
            (RE.alt (RE.lit "sd".toList) (RE.lit "-".toList))))))

/-- `(?:sampai|hingga|s/?d|s\.d\.|sd|-)` (pattern 2's separator: no `ke`). -/
def sepCoreShort : RE :=
  RE.alt (RE.lit "sampai".toList)
    (RE.alt (RE.lit "hingga".toList)
      (RE.alt (seqList [RE.lit "s".toList, RE.opt (RE.lit "/".toList),
        RE.lit "d".toList])
        (RE.alt (RE.lit "s.d.".toList)
          (RE.alt (RE.lit "sd".toList) (RE.lit "-".toList)))))

/-- `_parse_date_range` pattern 1: `{date_part}\s+(?:...)\s+{date_part}`. -/
def pattern_full : RE :=
  seqList [datePart 0 1 2, spaces1, sepCoreFull, spaces1, datePart 3 4 5]

/-- `_parse_date_range` pattern 2 (same-month shorthand):
`(?:tanggal|tgl)?\s*(\d{1,2})\s*(?:...)\s*(\d{1,2})\s+({month_names})\s*(\d{4})?`. -/
def pattern_short : RE :=
  seqList [tglRE, spaces0, dayRE 0, spaces0, sepCoreShort, spaces0, dayRE 1,
    spaces1, monthRE 2, spaces0, yearOpt 3]

/-- `_parse_specific_date` pattern. -/
def pattern_single : RE := datePart 0 1 2

/-- `_parse_specific_month` pattern:
`(?:bulan\s+)?({month_names})\s*(\d{4})?`. -/
def pattern_month : RE :=
  seqList [RE.opt (seqList [RE.lit "bulan".toList, spaces1]), monthRE 0,
    spaces0, yearOpt 1]

/-! ### The parse functions -/

def capGet (caps : Caps) (i : Nat) : Option (List Char) :=
  List.getD caps i none

def digitsToNat (l : List Char) : Nat :=
  l.foldl (fun acc c => acc * 10 + (c.toNat - 48)) 0

/-- `int(match.group(i+1))` for a group that participated. -/
def capNat (caps : Caps) (i : Nat) : Option Nat :=
  (capGet caps i).map digitsToNat

/-- `datetime(year, month, day)` guarded by `try/except ValueError`. -/
def tryDatetime (y m d : Nat) : Option Date :=
  if (Date.mk y m d).Valid then some ⟨y, m, d⟩ else none

/-- Python's substring test `sub in hay` for lists of characters. -/
def containsSub (hay sub : List Char) : Bool :=
  if sub.isPrefixOf hay then true
  else
    match hay with
    | [] => false
    | _ :: t => containsSub t sub

/-- The `range_seps` list of `_parse_multiple_dates`. -/
def range_seps : List String :=
  ["sampai", "hingga", "s/d", "s.d.", " sd ", " - "]

/-- Python's stable `list.sort()` on dates.  On a linear order in which
comparison-equal elements are identical values, every sorting algorithm
produces the same list, so insertion sort is extensionally faithful. -/
def insertDate (x : Date) : List Date → List Date
  | [] => [x]
  | y :: ys => if Date.le x y then x :: y :: ys else y :: insertDate x ys

def sortDates (l : List Date) : List Date :=
  l.foldr insertDate []

/-- The year-propagation loop of `_parse_multiple_dates`: iterates over the
matches in reversed order carrying `last_year` (`none` before any explicit
year is seen; Python's `elif last_year:` is numeric truthiness, hence the
`ly = 0` case falls back to the current year). -/
def fillYears (now_year : Nat) : List MatchInfo → Option Nat → List Date
  | [], _ => []
  | m :: rest, lastY =>
    let day := digitsToNat ((capGet m.caps 0).getD [])
    match month_map (String.mk ((capGet m.caps 1).getD [])) with
    | none => fillYears now_year rest lastY
    | some mn =>
      match capNat m.caps 2 with
      | some ys =>
        match tryDatetime ys mn day with
        | some dt => dt :: fillYears now_year rest (some ys)
        | none => fillYears now_year rest (some ys)
      | none =>
        let yn := match lastY with
          | some ly => if ly = 0 then now_year else ly
          | none => now_year
        match tryDatetime yn mn day with
        | some dt => dt :: fillYears now_year rest lastY
        | none => fillYears now_year rest lastY

/-- `QueryParserService._parse_multiple_dates` (operating on the lower-cased
query; `now_year` is `datetime.now().year`). -/
def parse_multiple_dates (now_year : Nat) (lower_query : List Char) :
    List Date :=
  let ms := reFindAll datePatternMulti lower_query
  match ms with
  | m0 :: m1 :: _ =>
    let text_between := (lower_query.drop m0.mstop).take (m1.mstart - m0.mstop)
    if range_seps.any (fun s => containsSub text_between s.toList) then []
    else
      let parsed := fillYears now_year ms.reverse none
      if parsed.length < 2 then []
      else sortDates parsed.reverse
  | _ => []

/-- `QueryParserService._parse_date_range`, pattern 2 (same-month shorthand). -/
def parse_date_range_short (now_year : Nat) (lower_query : List Char) :
    Option (Date × Date) :=
  match reSearch pattern_short lower_query with
  | none => none
  | some mi =>
    let d1 := digitsToNat ((capGet mi.caps 0).getD [])
    let d2 := digitsToNat ((capGet mi.caps 1).getD [])
    match month_map (String.mk ((capGet mi.caps 2).getD [])) with
    | none => none
    | some m =>
      let y := (capNat mi.caps 3).getD now_year
      match tryDatetime y m d1, tryDatetime y m d2 with
      | some s, some e => if Date.le s e then some (s, e) else none
      | _, _ => none

/-- `QueryParserService._parse_date_range`. -/
def parse_date_range (now_year : Nat) (lower_query : List Char) :
    Option (Date × Date) :=
  let second := parse_date_range_short now_year lower_query
  match reSearch pattern_full lower_query with
  | none => second
  | some mi =>
    let d1 := digitsToNat ((capGet mi.caps 0).getD [])
    let d2 := digitsToNat ((capGet mi.caps 3).getD [])
    match month_map (String.mk ((capGet mi.caps 1).getD [])),
        month_map (String.mk ((capGet mi.caps 4).getD [])) with
    | some m1, some m2 =>
      let y1 := match capNat mi.caps 2 with
        | some y => y
        | none => (capNat mi.caps 5).getD now_year
      let y2 := (capNat mi.caps 5).getD y1
      match tryDatetime y1 m1 d1, tryDatetime y2 m2 d2 with
      | some s, some e => if Date.le s e then some (s, e) else second
      | _, _ => second
    | _, _ => second

/-- `QueryParserService._parse_specific_date`. -/
def parse_specific_date (now_year : Nat) (lower_query : List Char) :
    Option Date :=
  match reSearch pattern_single lower_query with
  | none => none
  | some mi =>
    let day := digitsToNat ((capGet mi.caps 0).getD [])
    match month_map (String.mk ((capGet mi.caps 1).getD [])) with
    | none => none
    | some mn =>
      let yn := (capNat mi.caps 2).getD now_year
      tryDatetime yn mn day

/-- `str.rstrip()` on the text before the month match. -/
def rstripSpaces (l : List Char) : List Char :=
  (l.reverse.dropWhile (Cls.eval Cls.space)).reverse

/-- `QueryParserService._parse_specific_month`.  Returns `(month, year)`.
The guard embeds `re.search(r'\d$', before.rstrip())`: the month match must
not be immediately preceded (whitespace apart) by a digit. -/
def parse_specific_month (now_year : Nat) (lower_query : List Char) :
    Option (Nat × Nat) :=
  match reSearch pattern_month lower_query with
  | none => none
  | some mi =>
    let before := rstripSpaces (lower_query.take mi.mstart)
    let lastIsDigit := match before.getLast? with
      | some c => c.isDigit
      | none => false
    if !before.isEmpty && lastIsDigit then none
    else
      match month_map (String.mk ((capGet mi.caps 0).getD [])) with
      | none => none
      | some mn =>
        let yn := (capNat mi.caps 1).getD now_year
        some (mn, yn)

/-! ### `QueryResult` (`app/models/query.py`) and
`QueryParserService._keyword_fallback` -/

structure QueryResult where
  original_query : String
  metric : Option String := none
  metrics : List String := []
  timeframe_str : Option String := none
  specific_date : Option Date := none
  date_end : Option Date := none
  specific_dates : List Date := []
  specific_month : Option Nat := none
  specific_year : Option Nat := none
  capsters : List String := []
  capster_alias_map : List (String × List String) := []
  branches : List String := []
  report_type : Option String := none
  sort_by : Option String := none
  sort_order : String := "desc"
  limit : Nat := 10
  is_valid_query : Bool := true
  deriving DecidableEq, Repr

/-- `QueryResult.is_valid`. -/
def QueryResult.is_valid (r : QueryResult) : Bool :=
  r.metric.isSome || r.report_type.isSome || r.timeframe_str.isSome ||
    r.specific_date.isSome || r.date_end.isSome ||
    !r.specific_dates.isEmpty || r.specific_month.isSome ||
    !r.metrics.isEmpty

/-- `str.lower()` (ASCII; the vocabulary and names involved are ASCII). -/
def strLower (s : String) : String :=
  String.mk (s.toList.map Char.toLower)

/-- `any(kw in lower_query for kw in kws)`. -/
def anyKw (lower_query : List Char) (kws : List String) : Bool :=
  kws.any (fun kw => containsSub lower_query kw.toList)

/-- `MONTHS_ID.get(month_num, str(month_num))` (display names). -/
def months_id (n : Nat) : String :=
  if n = 1 then "Januari" else if n = 2 then "Februari"
  else if n = 3 then "Maret" else if n = 4 then "April"
  else if n = 5 then "Mei" else if n = 6 then "Juni"
  else if n = 7 then "Juli" else if n = 8 then "Agustus"
  else if n = 9 then "September" else if n = 10 then "Oktober"
  else if n = 11 then "November" else if n = 12 then "Desember"
  else toString n

/-- `%B` of `strftime` under the C locale: English month names. -/
def monthNameEn (n : Nat) : String :=
  if n = 1 then "January" else if n = 2 then "February"
  else if n = 3 then "March" else if n = 4 then "April"
  else if n = 5 then "May" else if n = 6 then "June"
  else if n = 7 then "July" else if n = 8 then "August"
  else if n = 9 then "September" else if n = 10 then "October"
  else if n = 11 then "November" else if n = 12 then "December"
  else ""

def pad2 (n : Nat) : String :=
  if n < 10 then "0" ++ toString n else toString n

/-- `d.strftime('%d %B %Y')`. -/
def fmtDate (d : Date) : String :=
  pad2 d.day ++ " " ++ monthNameEn d.month ++ " " ++ toString d.year

/-- The fixed `_branch_aliases` dict of `QueryParserService.__init__`. -/
def branch_aliases : List (String × String) :=
  [("denailla", "Cabang Denailla"), ("mojosari", "Cabang Denailla"),
   ("cabang a", "Cabang Denailla"), ("sumput", "Cabang Sumput"),
   ("cabang b", "Cabang Sumput")]

/-- `self._branch_list`: the `name` field of each entry of `BRANCHES`,
in dict order. -/
def branch_list : List String := ["Cabang Denailla", "Cabang Sumput"]

/-- The `--- REPORT TYPE & METRICS ---` section of `_keyword_fallback`:
first matching keyword group wins, defaulting to `general`. -/
def report_type_stage (base : QueryResult) (lower_query : List Char) :
    QueryResult :=
  if anyKw lower_query ["ranking", "terbaik", "top capster",
      "capster terbaik", "peringkat"] then
    { base with report_type := some "capster_ranking",
                metrics := ["revenue", "transaction_count"] }
  else if anyKw lower_query ["banding", "perbandingan", "compare",
      "vs cabang"] then
    { base with report_type := some "branch_comparison",
                metrics := ["revenue", "transaction_count"] }
  else if anyKw lower_query ["layanan populer", "service terpopuler",
      "paling laku", "terlaris"] then
    { base with report_type := some "service_popularity",
                metrics := ["transaction_count"] }
  else if anyKw lower_query ["laba", "rugi", "profit", "keuntungan",
      "margin"] then
    { base with report_type := some "profit", metric := some "profit",
                metrics := ["revenue", "profit"] }
  else if anyKw lower_query ["pendapatan", "revenue", "omzet", "omset",
      "pemasukan", "income"] then
    { base with report_type := some "revenue", metric := some "pendapatan",
                metrics := ["revenue"] }
  else if anyKw lower_query ["transaksi", "transaction", "jumlah"] then
    { base with report_type := some "transaction_count",
                metric := some "transaksi",
                metrics := ["transaction_count"] }
  else if anyKw lower_query ["laporan harian", "ringkasan harian",
      "daily"] then
    { base with report_type := some "daily_summary",
                metrics := ["revenue", "transaction_count"] }
  else if anyKw lower_query ["laporan mingguan", "ringkasan mingguan",
      "weekly"] then
    { base with report_type := some "weekly_summary",
                metrics := ["revenue", "transaction_count"] }
  else if anyKw lower_query ["laporan bulanan", "ringkasan bulanan",
      "monthly", "laporan bulan"] then
    { base with report_type := some "monthly_summary",
                metrics := ["revenue", "transaction_count"] }
  else
    { base with report_type := some "general",
                metrics := ["revenue", "transaction_count"] }

/-- The relative-keyword `elif` chain at the end of the `--- TIMEFRAME ---`
section (`hari ini` ... `3 bulan`/`tiga bulan`); `none` when no relative
keyword occurs. -/
def relative_keyword (lower_query : List Char) : Option String :=
  if containsSub lower_query "hari ini".toList then some "hari ini"
  else if containsSub lower_query "kemarin".toList then some "kemarin"
  else if containsSub lower_query "minggu lalu".toList then some "minggu lalu"
  else if containsSub lower_query "minggu ini".toList then some "minggu ini"
  else if containsSub lower_query "bulan lalu".toList then some "bulan lalu"
  else if containsSub lower_query "bulan ini".toList then some "bulan ini"
  else if containsSub lower_query "3 bulan".toList ||
      containsSub lower_query "tiga bulan".toList then
    some "3 bulan terakhir"
  else none

/-- The `--- TIMEFRAME ---` section of `_keyword_fallback`:
multiple dates > date range > single date > specific month > relative
keyword > default `"bulan ini"`. -/
def timeframe_stage (now_year : Nat) (lower_query : List Char)
    (q1 : QueryResult) : QueryResult :=
  let multi_dates := parse_multiple_dates now_year lower_query
  let date_range :=
    if multi_dates.isEmpty then parse_date_range now_year lower_query
    else none
  if !multi_dates.isEmpty then
    { q1 with
        specific_dates := multi_dates,
        timeframe_str := some ("tanggal " ++
          String.intercalate ", " (multi_dates.map fmtDate)) }
  else
    match date_range with
    | some (s, e) =>
      { q1 with
          specific_date := some s, date_end := some e,
          timeframe_str := some (fmtDate s ++ " - " ++ fmtDate e) }
    | none =>
      let sdate := parse_specific_date now_year lower_query
      let smonth := parse_specific_month now_year lower_query
      match sdate with
      | some d =>
        { q1 with specific_date := some d,
                  timeframe_str := some ("tanggal " ++ fmtDate d) }
      | none =>
        match smonth with
        | some (mn, yn) =>
          { q1 with specific_month := some mn, specific_year := some yn,
                    timeframe_str := some (months_id mn ++ " " ++
                      toString yn) }
        | none =>
          match relative_keyword lower_query with
          | some k => { q1 with timeframe_str := some k }
          | none => { q1 with timeframe_str := some "bulan ini" }

/-- The `--- ENTITIES ---` section of `_keyword_fallback`: capsters by
containment of the lower-cased known names, branches via the alias table
and then the configured names, without duplicates. -/
def entities_stage (capster_list : List String) (lower_query : List Char)
    (q2 : QueryResult) : QueryResult :=
  let q3 := { q2 with
    capsters := capster_list.filter
      (fun n => containsSub lower_query (strLower n).toList) }
  let branches1 := branch_aliases.foldl
    (fun acc ab =>
      if containsSub lower_query ab.1.toList && !(acc.contains ab.2) then
        acc ++ [ab.2]
      else acc) []
  let branches2 := branch_list.foldl
    (fun acc bn =>
      if containsSub lower_query (strLower bn).toList && !(acc.contains bn)
      then acc ++ [bn]
      else acc) branches1
  { q3 with branches := branches2 }

/-- `QueryParserService._keyword_fallback`.  `capster_list` is the service's
capster list, `now_year` is `datetime.now().year`. -/
def keyword_fallback (capster_list : List String) (now_year : Nat)
    (user_query : String) : QueryResult :=
  let lower_query := user_query.toList.map Char.toLower
  let base : QueryResult := { original_query := user_query }
  let q1 := report_type_stage base lower_query
  let q2 := timeframe_stage now_year lower_query q1
  let q4 := entities_stage capster_list lower_query q2
  { q4 with is_valid_query := q4.is_valid }

/-! ### Branch configuration (`app/config/constants.py`, `BRANCHES`) and the
profit computation (`ReportService.generate_monthly_profit_dataframe`)

Monetary amounts and rates are modelled as `ℚ`; the two configured rates
(0 and 0.5) and the integer costs are all exactly representable by the
Python floats involved, so `ℚ` arithmetic coincides with the code's. -/

structure BranchConfig where
  name : String
  location : String
  short : String
  employees : Nat
  commission_rate : ℚ
  operational_cost : List (String × ℚ)
  deriving DecidableEq, Repr

def BRANCHES : List (String × BranchConfig) :=
  [("cabang_a",
    { name := "Cabang Denailla", location := "Mojosari", short := "Cabang A",
      employees := 2, commission_rate := 0,
      operational_cost :=
        [("tempat", 520000), ("listrik air", 400000), ("wifi", 15000),
         ("karyawan_fixed", 2500000)] }),
   ("cabang_b",
    { name := "Cabang Sumput", location := "Sumput", short := "Cabang B",
      employees := 2, commission_rate := 1/2,
      operational_cost :=
        [("tempat", 792000), ("listrik air", 350000), ("wifi", 30000),
         ("karyawan_fixed", 0)] })]

/-- One row of the transaction table
(`get_transactions(year) → table{date, capster, service, price,
payment_method, branch}`). -/
structure Transaction where
  date : Date
  capster : String
  service : String
  price : ℚ
  payment_method : String
  branch : String
  deriving DecidableEq, Repr

/-- The month filter
`df[df['Date'].dt.strftime('%Y-%m') == f"{year:04d}-{month:02d}"]`:
for the four-digit years the system handles, equality of the formatted
strings is equality of the (year, month) pair. -/
def monthlyFilter (df : List Transaction) (y m : Nat) : List Transaction :=
  df.filter (fun r => r.date.year == y && r.date.month == m)

structure ProfitRow where
  revenue : ℚ
  fixed_cost : ℚ
  commission_cost : ℚ
  operational_cost : ℚ
  net_profit : ℚ
  deriving DecidableEq, Repr

def branchRevenue (monthly : List Transaction) (short : String) : ℚ :=
  ((monthly.filter (fun r => r.branch == short)).map
    (fun r => r.price)).sum

/-- The per-branch body of the `for branch_id, branch_config in
BRANCHES.items()` loop. -/
def profitRowFor (monthly : List Transaction) (bc : BranchConfig) :
    ProfitRow :=
  let revenue := branchRevenue monthly bc.short
  let fixed_costs := (bc.operational_cost.map (fun c => c.2)).sum
  let commission_cost := revenue * bc.commission_rate
  let total_costs := fixed_costs + commission_cost
  { revenue := revenue, fixed_cost := fixed_costs,
    commission_cost := commission_cost, operational_cost := total_costs,
    net_profit := revenue - total_costs }

/-- `ReportService.generate_monthly_profit_dataframe`, as a function of the
fetched year table `df`.  Result rows are keyed by the branch `short` name,
with the `Overall` row appended last, exactly as the code builds `results`.
The code's `overall_*` accumulators are the sums of the per-branch values
over the `BRANCHES` loop. -/
def generate_monthly_profit_dataframe (df : List Transaction) (y m : Nat) :
    List (String × ProfitRow) :=
  let monthly := monthlyFilter df y m
  if monthly.isEmpty then []
  else
    let rows := BRANCHES.map (fun b => (b.2.short, profitRowFor monthly b.2))
    let overall_revenue := (rows.map (fun r => r.2.revenue)).sum
    let overall_fixed := (rows.map (fun r => r.2.fixed_cost)).sum
    let overall_commission := (rows.map (fun r => r.2.commission_cost)).sum
    let overall_operational := overall_fixed + overall_commission
    rows ++ [("Overall",
      { revenue := overall_revenue, fixed_cost := overall_fixed,
        commission_cost := overall_commission,
        operational_cost := overall_operational,
        net_profit := overall_revenue - overall_operational })]

/-! ### The per-year TTL transaction cache
(`ReportService._get_or_fetch_transactions`)

The two dicts `_transactions_cache` / `_cache_timestamp` are association
lists keyed by year; `datetime.now()` is an injected instant (seconds, as
`Int`); `CACHE_DURATION = timedelta(minutes=5)` is 300 seconds.  The
external store is an injected `fetch` that either returns the year's table
or raises (`Except.error`); a raised error propagates before the two cache
assignments run, leaving the state unchanged. -/

def lookupA {κ α : Type} [BEq κ] (l : List (κ × α)) (k : κ) : Option α :=
  (l.find? (fun p => p.1 == k)).map (fun p => p.2)

def updateA {κ α : Type} [BEq κ] (l : List (κ × α)) (k : κ) (v : α) :
    List (κ × α) :=
  if l.any (fun p => p.1 == k) then
    l.map (fun p => if p.1 == k then (k, v) else p)
  else l ++ [(k, v)]

structure CacheState (Table : Type) where
  transactions_cache : List (Nat × Table)
  cache_timestamp : List (Nat × Int)

def CACHE_DURATION : Int := 300

/-- `ReportService._get_or_fetch_transactions`.  Returns the outcome, the
new cache state, and whether a fetch of the external store was observed. -/
def get_or_fetch_transactions {Table ε : Type}
    (fetch : Nat → Except ε Table) (now : Int) (st : CacheState Table)
    (year : Nat) : Except ε Table × CacheState Table × Bool :=
  let hit :=
    match lookupA st.transactions_cache year, lookupA st.cache_timestamp year
    with
    | some df, some ts =>
      if now - ts < CACHE_DURATION then some df else none
    | _, _ => none
  match hit with
  | some df => (Except.ok df, st, false)
  | none =>
    match fetch year with
    | Except.error e => (Except.error e, st, true)
    | Except.ok df =>
      (Except.ok df,
       { transactions_cache := updateA st.transactions_cache year df,
         cache_timestamp := updateA st.cache_timestamp year now },
       true)

/-! ### Capster aliases (`app/models/capster.py`,
`CapsterService.get_name_alias_map`) and the capster filter of
`ReportService` -/

structure Capster where
  name : String
  telegram_id : Int
  «alias» : String
  deriving DecidableEq, Repr

/-- `Capster.all_names`. -/
def Capster.all_names (c : Capster) : List String :=
  if c.«alias» != "" && strLower c.«alias» != strLower c.name then
    [c.name, c.«alias»]
  else [c.name]

/-- `CapsterService.get_name_alias_map`: every known lower-cased name of a
capster maps to the full list of that capster's lower-cased names. -/
def get_name_alias_map (capsters : List Capster) :
    List (String × List String) :=
  capsters.foldl
    (fun m c =>
      let all_lower := c.all_names.map strLower
      all_lower.foldl (fun m2 nl => updateA m2 nl all_lower) m)
    []

/-- `ReportService._filter_by_capster` (the same alias expansion is inlined
in `generate_report_from_query`): filter to the rows whose lower-cased
capster is the requested name or one of its aliases. -/
def filter_by_capster (alias_map : List (String × List String))
    (df : List Transaction) (capster_name : String) : List Transaction :=
  let name_lower := strLower capster_name
  let names_to_match := name_lower :: (lookupA alias_map name_lower).getD []
  df.filter (fun r => names_to_match.contains (strLower r.capster))

/-- A concrete February 2026 table used by witnesses: one 1,000,000 sale in
each branch (the spec's Scenario D revenue figures). -/
def dfScenario : List Transaction :=
  [{ date := ⟨2026, 2, 10⟩, capster := "Zidan", service := "Cukur",
     price := 1000000, payment_method := "cash", branch := "Cabang A" },
   { date := ⟨2026, 2, 11⟩, capster := "Rafi", service := "Cukur",
     price := 1000000, payment_method := "qris", branch := "Cabang B" }]

/-- The stale-or-missing condition under which
`_get_or_fetch_transactions` goes to the external store. -/
def CacheMiss {Table : Type} (st : CacheState Table) (year : Nat)
    (now : Int) : Prop :=
  lookupA st.transactions_cache year = none ∨
    lookupA st.cache_timestamp year = none ∨
    (∀ ts, lookupA st.cache_timestamp year = some ts →
      CACHE_DURATION ≤ now - ts)

/-- The lower-cased known names of a capster. -/
def lowNames (c : Capster) : List String :=
  c.all_names.map strLower

/-- `process_query` (query handler) performs the store fetch if and only if
the parsed intent reports itself valid; on an invalid intent it answers
"query not understood" and returns before any retrieval. -/
def process_query_attempts_fetch (qr : QueryResult) : Bool :=
  qr.is_valid

/-! #### Multiple-dates machinery (claim C2)

`specYearAcc`/`specFillAcc` are modelled from the spec: "Missing years are
filled by propagating the nearest explicit year to the right, processing
right-to-left, defaulting to the current year if none found anywhere" —
stated left-to-right: a match keeps its own explicit year, and a match
without one takes the year of the nearest match to its right that has an
explicit year (and a resolvable month name), the current year if there is
none (or if that year is the literal `0000`, which Python's numeric
truthiness treats as absent).  `acc` carries the year state contributed by
matches further right than the whole list (none at the top level). -/

def monthOk (m : MatchInfo) : Bool :=
  (month_map (String.mk ((capGet m.caps 1).getD []))).isSome

def specYearAcc (ny : Nat) (acc : Option Nat) (m : MatchInfo)
    (rest : List MatchInfo) : Nat :=
  match capNat m.caps 2 with
  | some y => y
  | none =>
    match rest.find? (fun m2 => monthOk m2 && (capNat m2.caps 2).isSome) with
    | some m2 =>
      if (capNat m2.caps 2).getD 0 = 0 then ny else (capNat m2.caps 2).getD 0
    | none =>
      match acc with
      | some ly => if ly = 0 then ny else ly
      | none => ny

def specFillAcc (ny : Nat) (acc : Option Nat) : List MatchInfo → List Date
  | [] => []
  | m :: rest =>
    match month_map (String.mk ((capGet m.caps 1).getD [])) with
    | none => specFillAcc ny acc rest
    | some mn =>
      match tryDatetime (specYearAcc ny acc m rest) mn
          (digitsToNat ((capGet m.caps 0).getD [])) with
      | some dt => dt :: specFillAcc ny acc rest
      | none => specFillAcc ny acc rest

/-- The `last_year` state after `fillYears` has processed a list. -/
def lastYAfter (acc : Option Nat) : List MatchInfo → Option Nat
  | [] => acc
  | m :: rest =>
    match month_map (String.mk ((capGet m.caps 1).getD [])) with
    | none => lastYAfter acc rest
    | some _ =>
      match capNat m.caps 2 with
      | some ys => lastYAfter (some ys) rest
      | none => lastYAfter acc rest

/-- The in-code guard of `_parse_multiple_dates`: a range separator occurs
between the first two date matches. -/
def multi_dates_has_sep (q : List Char) : Bool :=
  match reFindAll datePatternMulti q with
  | m0 :: m1 :: _ =>
    range_seps.any (fun s2 =>
      containsSub ((q.drop m0.mstop).take (m1.mstart - m0.mstop)) s2.toList)
  | _ => false

/-! ## Theorems -/

/-! #### Calendar lemmas -/

theorem daysInMonth_pos (y : Nat) (m : Nat) (h1 : 1 ≤ m) (h2 : m ≤ 12) :
    28 ≤ daysInMonth y m := by
  interval_cases m <;> simp [daysInMonth] <;> split <;> omega

theorem daysBeforeMonth_succ (y : Nat) (m : Nat) (h1 : 1 ≤ m) (h2 : m < 12) :
    daysBeforeMonth y (m + 1) = daysBeforeMonth y m + daysInMonth y m := by
  interval_cases m <;> simp [daysBeforeMonth, daysInMonth] <;> split <;> omega

theorem daysBeforeYear_succ (y : Nat) (h1 : 1 ≤ y) :
    daysBeforeYear (y + 1) =
      daysBeforeYear y + 365 + (if isLeap y then 1 else 0) := by
  unfold daysBeforeYear isLeap
  have hy : y + 1 - 1 = (y - 1) + 1 := by omega
  rw [hy, Nat.succ_div, Nat.succ_div, Nat.succ_div]
  have h4 : (4 ∣ y - 1 + 1) ↔ y % 4 = 0 := by omega
  have h100 : (100 ∣ y - 1 + 1) ↔ y % 100 = 0 := by omega
  have h400 : (400 ∣ y - 1 + 1) ↔ y % 400 = 0 := by omega
  have hle1 : (y - 1) / 100 ≤ (y - 1) / 4 :=
    Nat.div_le_div_left (by omega) (by omega)
  have hle2 : (y - 1) / 400 ≤ (y - 1) / 100 :=
    Nat.div_le_div_left (by omega) (by omega)
  simp only [Bool.or_eq_true, Bool.and_eq_true, beq_iff_eq, bne_iff_ne,
    decide_eq_true_eq]
  split_ifs with hA hB hC hD hE hF hG hH <;> simp_all <;> omega

theorem toordinal_succ (d : Date) (h : d.Valid) :
    d.succ.toordinal = d.toordinal + 1 := by
  obtain ⟨h1, h2, h3, h4, h5, h6⟩ := h
  unfold Date.succ
  split
  · simp only [Date.toordinal]; omega
  · split
    · next hday hm =>
      simp only [Date.toordinal]
      rw [daysBeforeMonth_succ d.year d.month h3 hm]
      omega
    · next hday hm =>
      have hm12 : d.month = 12 := by omega
      have hdim : daysInMonth d.year d.month = 31 := by rw [hm12]; rfl
      have hday' : d.day = 31 := by omega
      simp only [Date.toordinal]
      rw [daysBeforeYear_succ d.year h1, hm12, hday']
      have hdbm : daysBeforeMonth d.year 12 = 334 + (if isLeap d.year then 1 else 0) := rfl
      have hdbm1 : daysBeforeMonth (d.year + 1) 1 = 0 := rfl
      rw [hdbm, hdbm1]
      split <;> omega

theorem succ_valid (d : Date) (h : d.Valid) (hy : d.year ≤ 9998) :
    d.succ.Valid := by
  obtain ⟨h1, h2, h3, h4, h5, h6⟩ := h
  unfold Date.succ Date.Valid
  split
  · dsimp only; omega
  · split
    · next hm =>
      have := daysInMonth_pos d.year (d.month + 1) (by omega) (by omega)
      dsimp only; omega
    · have := daysInMonth_pos (d.year + 1) 1 (by omega) (by omega)
      dsimp only; omega

theorem succ_safeValid (d : Date) (h : d.SafeValid) (hm : d.month ≤ 11 ∨ d.day < 31) :
    d.succ.SafeValid := by
  obtain ⟨hv, hy⟩ := h
  refine ⟨succ_valid d hv hy, ?_⟩
  unfold Date.succ
  split
  · exact hy
  · split
    · exact hy
    · next hday hmm =>
      exfalso
      obtain ⟨h1, h2, h3, h4, h5, h6⟩ := hv
      have hm12 : d.month = 12 := by omega
      rcases hm with hm | hm
      · omega
      · have : daysInMonth d.year d.month = 31 := by rw [hm12]; rfl
        omega

theorem addDays_add (d : Date) (a b : Nat) :
    (d.addDays a).addDays b = d.addDays (a + b) := by
  induction a generalizing d with
  | zero => rw [Nat.zero_add]; rfl
  | succ n ih =>
    rw [Nat.add_right_comm]
    show ((d.succ).addDays n).addDays b = (d.succ).addDays (n + b)
    exact ih d.succ

/-- Adding days that stay inside the month just increments the day field. -/
theorem addDays_in_month (y m : Nat) (k : Nat) :
    ∀ d0, 1 ≤ d0 → d0 + k ≤ daysInMonth y m →
      Date.addDays ⟨y, m, d0⟩ k = ⟨y, m, d0 + k⟩ := by
  induction k with
  | zero => intro d0 _ _; rfl
  | succ n ih =>
    intro d0 h1 h2
    show Date.addDays (Date.succ ⟨y, m, d0⟩) n = _
    have hs : Date.succ ⟨y, m, d0⟩ = ⟨y, m, d0 + 1⟩ := by
      unfold Date.succ; dsimp only
      rw [if_pos (by omega)]
    rw [hs, ih (d0 + 1) (by omega) (by omega)]
    congr 1
    omega

/-- Adding days across the end of the month lands in the following month
(or January of the following year), as long as fewer than 28 days spill over. -/
theorem addDays_cross (y m d k : Nat) (hv : (Date.mk y m d).Valid)
    (hcross : daysInMonth y m < d + k)
    (hk : d + k ≤ daysInMonth y m + 28) :
    Date.addDays ⟨y, m, d⟩ k =
      (if m < 12 then (⟨y, m + 1, d + k - daysInMonth y m⟩ : Date)
        else ⟨y + 1, 1, d + k - daysInMonth y m⟩) := by
  obtain ⟨h1, h2, h3, h4, h5, h6⟩ := hv
  dsimp only at h1 h2 h3 h4 h5 h6
  have key : Date.addDays ⟨y, m, d⟩ k =
      Date.addDays ⟨y, m, d⟩
        ((daysInMonth y m - d) + ((d + k - daysInMonth y m - 1) + 1)) := by
    congr 1
    omega
  rw [key, ← addDays_add,
    addDays_in_month y m (daysInMonth y m - d) d h5 (by omega)]
  have hD : (⟨y, m, d + (daysInMonth y m - d)⟩ : Date) =
      ⟨y, m, daysInMonth y m⟩ := by
    congr 1
    omega
  rw [hD]
  show Date.addDays (Date.succ ⟨y, m, daysInMonth y m⟩) _ = _
  have hsucc : Date.succ ⟨y, m, daysInMonth y m⟩ =
      (if m < 12 then (⟨y, m + 1, 1⟩ : Date) else ⟨y + 1, 1, 1⟩) := by
    unfold Date.succ
    dsimp only
    rw [if_neg (by omega)]
  rw [hsucc]
  split
  · next hm =>
    have hdim := daysInMonth_pos y (m + 1) (by omega) (by omega)
    rw [addDays_in_month y (m + 1) _ 1 (by omega) (by omega)]
    congr 1
    omega
  · next hm =>
    have hdim := daysInMonth_pos (y + 1) 1 (by omega) (by omega)
    rw [addDays_in_month (y + 1) 1 _ 1 (by omega) (by omega)]
    congr 1
    omega

/-- Within a 28-day spill-over window, `addDays` advances `toordinal`
by exactly the number of days added. -/
theorem toordinal_addDays_small (y m d k : Nat) (hv : (Date.mk y m d).Valid)
    (hk : d + k ≤ daysInMonth y m + 28) :
    (Date.addDays ⟨y, m, d⟩ k).toordinal = (Date.mk y m d).toordinal + k := by
  obtain ⟨h1, h2, h3, h4, h5, h6⟩ := hv
  dsimp only at h1 h2 h3 h4 h5 h6
  by_cases hin : d + k ≤ daysInMonth y m
  · rw [addDays_in_month y m k d h5 hin]
    simp only [Date.toordinal]
    omega
  · rw [addDays_cross y m d k ⟨h1, h2, h3, h4, h5, h6⟩ (by omega) hk]
    split
    · next hm =>
      simp only [Date.toordinal]
      rw [daysBeforeMonth_succ y m h3 hm]
      omega
    · next hm =>
      have hm12 : m = 12 := by omega
      subst hm12
      have hdim : daysInMonth y 12 = 31 := rfl
      simp only [Date.toordinal]
      rw [daysBeforeYear_succ y h1]
      have hdbm : daysBeforeMonth y 12 = 334 + (if isLeap y then 1 else 0) := rfl
      have hdbm1 : daysBeforeMonth (y + 1) 1 = 0 := rfl
      rw [hdbm, hdbm1]
      rw [hdim] at hk hin ⊢
      split <;> omega

/-- The result of a small `addDays` step is again a valid date, with the year
growing by at most one. -/
theorem addDays_valid_small (y m d k : Nat) (hv : (Date.mk y m d).Valid)
    (hy : y ≤ 9998) (hk : d + k ≤ daysInMonth y m + 28) :
    (Date.addDays ⟨y, m, d⟩ k).Valid ∧
      (Date.addDays ⟨y, m, d⟩ k).year ≤ y + 1 := by
  obtain ⟨h1, h2, h3, h4, h5, h6⟩ := hv
  dsimp only at h1 h2 h3 h4 h5 h6
  by_cases hin : d + k ≤ daysInMonth y m
  · rw [addDays_in_month y m k d h5 hin]
    refine ⟨by unfold Date.Valid; dsimp only; omega, by dsimp only; omega⟩
  · rw [addDays_cross y m d k ⟨h1, h2, h3, h4, h5, h6⟩ (by omega) hk]
    split
    · next hm =>
      have hdim := daysInMonth_pos y (m + 1) (by omega) (by omega)
      refine ⟨by unfold Date.Valid; dsimp only; omega, by dsimp only; omega⟩
    · next hm =>
      have hdim := daysInMonth_pos (y + 1) 1 (by omega) (by omega)
      refine ⟨by unfold Date.Valid; dsimp only; omega, by dsimp only; omega⟩

theorem first_monday_spec (y m : Nat) (hm1 : 1 ≤ m) (hm2 : m ≤ 12)
    (hy1 : 1 ≤ y) (hy2 : y ≤ 9999) :
    (get_first_monday_of_month y m).weekday = 0 ∧
      (get_first_monday_of_month y m).year = y ∧
      (get_first_monday_of_month y m).month = m ∧
      (get_first_monday_of_month y m).day =
        1 + (7 - (Date.mk y m 1).weekday) % 7 := by
  have hdim := daysInMonth_pos y m hm1 hm2
  have hv1 : (Date.mk y m 1).Valid :=
    ⟨hy1, hy2, hm1, hm2, le_refl 1, by dsimp only; omega⟩
  have hwd : (Date.mk y m 1).weekday < 7 := Nat.mod_lt _ (by omega)
  unfold get_first_monday_of_month
  by_cases h0 : (Date.mk y m 1).weekday = 0
  · rw [if_pos (by simp [h0])]
    refine ⟨h0, rfl, rfl, ?_⟩
    rw [h0]
  · have hdu : (7 - (Date.mk y m 1).weekday) % 7 = 7 - (Date.mk y m 1).weekday := by
      omega
    rw [if_neg (by simp [h0])]
    have hadd : (Date.mk y m 1).addDays ((7 - (Date.mk y m 1).weekday) % 7) =
        ⟨y, m, 1 + (7 - (Date.mk y m 1).weekday) % 7⟩ := by
      rw [hdu]
      exact addDays_in_month y m _ 1 (le_refl 1) (by omega)
    rw [hadd]
    rw [if_neg (by dsimp only; omega)]
    have hord : (Date.mk y m (1 + (7 - (Date.mk y m 1).weekday) % 7)).toordinal =
        (Date.mk y m 1).toordinal + (7 - (Date.mk y m 1).weekday) % 7 := by
      simp only [Date.toordinal]
      omega
    refine ⟨?_, rfl, rfl, rfl⟩
    unfold Date.weekday at *
    omega

theorem get_weeks_loop_succ (month fuel : Nat) (cm : Date) (wn : Nat) :
    get_weeks_loop month (fuel + 1) cm wn =
      if (cm.month == month) || ((cm.month == month) && (wn == 1)) then
        if (((cm.addDays 6).addDays 1).month != month) &&
            (((cm.addDays 6).addDays 1).day > 7) then
          [⟨wn, cm, 0, cm.addDays 6, 86399⟩]
        else
          (⟨wn, cm, 0, cm.addDays 6, 86399⟩ : Week) ::
            get_weeks_loop month fuel ((cm.addDays 6).addDays 1) (wn + 1)
      else [] := rfl

theorem weeks_loop_invariant (y m : Nat) (hm1 : 1 ≤ m) (hm2 : m ≤ 12)
    (hy2 : y ≤ 9998) :
    ∀ fuel monday wn, monday.Valid → monday.weekday = 0 →
      (monday.month = m → monday.year = y) →
      (∀ w ∈ get_weeks_loop m fuel monday wn, okWeek y m w) ∧
      (∀ w, (get_weeks_loop m fuel monday wn).head? = some w →
        w.start_date = monday ∧ w.week_num = wn) ∧
      List.Chain' (fun a b => b.start_date = a.end_date.addDays 1)
        (get_weeks_loop m fuel monday wn) ∧
      (∀ w ∈ get_weeks_loop m fuel monday wn,
        monday.toordinal ≤ w.start_date.toordinal) ∧
      (monday.month = m → get_weeks_loop m fuel monday wn ≠ [] ∨ fuel = 0) := by
  intro fuel
  induction fuel with
  | zero =>
    intro monday wn _ _ _
    exact ⟨by simp [get_weeks_loop], by simp [get_weeks_loop],
      by simp [get_weeks_loop], by simp [get_weeks_loop], fun _ => Or.inr rfl⟩
  | succ fuel ih =>
    intro monday wn hv hwd hym
    by_cases hm : monday.month = m
    case neg =>
      have hcond : ((monday.month == m) ||
          ((monday.month == m) && (wn == 1))) = false := by
        simp [hm]
      refine ⟨?_, ?_, ?_, ?_, fun h => absurd h hm⟩ <;>
        simp [get_weeks_loop, hcond]
    case pos =>
      have hyy : monday.year = y := hym hm
      obtain ⟨yy, mm, dd⟩ := monday
      dsimp only at hm hyy
      subst hm hyy
      obtain ⟨hv1, hv2, hv3, hv4, hv5, hv6⟩ := hv
      dsimp only at hv1 hv2 hv3 hv4 hv5 hv6
      have hdim := daysInMonth_pos yy mm hv3 hv4
      have hvm : (Date.mk yy mm dd).Valid :=
        ⟨hv1, hv2, hv3, hv4, hv5, hv6⟩
      have hord7 : ((Date.mk yy mm dd).addDays 7).toordinal =
          (Date.mk yy mm dd).toordinal + 7 :=
        toordinal_addDays_small yy mm dd 7 hvm (by omega)
      have hval7 := addDays_valid_small yy mm dd 7 hvm hy2 (by omega)
      have hwd7 : ((Date.mk yy mm dd).addDays 7).weekday = 0 := by
        unfold Date.weekday at hwd ⊢
        omega
      have hym7 : ((Date.mk yy mm dd).addDays 7).month = mm →
          ((Date.mk yy mm dd).addDays 7).year = yy := by
        intro hmm
        by_cases hin : dd + 7 ≤ daysInMonth yy mm
        · rw [addDays_in_month yy mm 7 dd (by omega) hin]
        · have hc := addDays_cross yy mm dd 7 hvm (by omega) (by omega)
          rw [hc] at hmm
          exfalso
          split at hmm
          · next h12 => dsimp only at hmm; omega
          · next h12 => dsimp only at hmm; omega
      have hord_le : (Date.mk yy mm dd).toordinal ≤
          ((Date.mk yy mm dd).addDays 7).toordinal := by omega
      obtain ⟨ihA, ihB, ihC, ihD, _⟩ :=
        ih ((Date.mk yy mm dd).addDays 7) (wn + 1) hval7.1 hwd7 hym7
      have hnext : ((Date.mk yy mm dd).addDays 6).addDays 1 =
          (Date.mk yy mm dd).addDays 7 := by
        rw [addDays_add]
      have hcond : (((Date.mk yy mm dd).month == mm) ||
          (((Date.mk yy mm dd).month == mm) && (wn == 1))) = true := by
        simp
      rw [get_weeks_loop_succ, hnext, if_pos hcond]
      have hokw : okWeek yy mm ⟨wn, ⟨yy, mm, dd⟩, 0, (Date.mk yy mm dd).addDays 6, 86399⟩ := by
        unfold okWeek
        dsimp only
        exact ⟨hwd, rfl, rfl, rfl, rfl, rfl⟩
      split
      · -- the loop breaks after this window
        refine ⟨?_, ?_, ?_, ?_, ?_⟩
        · intro w hw
          simp only [List.mem_singleton] at hw
          rw [hw]
          exact hokw
        · intro w hw
          simp only [List.head?_cons, Option.some.injEq] at hw
          rw [← hw]
          exact ⟨rfl, rfl⟩
        · simp
        · intro w hw
          simp only [List.mem_singleton] at hw
          rw [hw]
        · intro _
          left
          simp
      · -- the loop continues with the next Monday
        refine ⟨?_, ?_, ?_, ?_, ?_⟩
        · intro w hw
          rcases List.mem_cons.mp hw with hw | hw
          · rw [hw]; exact hokw
          · exact ihA w hw
        · intro w hw
          simp only [List.head?_cons, Option.some.injEq] at hw
          rw [← hw]
          exact ⟨rfl, rfl⟩
        · refine List.chain'_cons'.mpr ⟨?_, ihC⟩
          intro b hb
          have hhd := ihB b hb
          dsimp only
          rw [hhd.1, ← hnext]
        · intro w hw
          rcases List.mem_cons.mp hw with hw | hw
          · rw [hw]
          · exact le_trans hord_le (ihD w hw)
        · intro _
          left
          simp

/-- C4: for every transaction table, month with data, and branch, the
profit computation satisfies
`net_profit = revenue − fixed_cost − revenue × commission_rate`
(with the zero-commission special case `revenue − fixed_cost`), where
`revenue` sums `Price` over that branch's rows of the month and
`fixed_cost` sums the branch's configured cost items; and the `Overall`
row is the component-wise sum over all branches, for every component
including `net_profit`. -/
theorem profit_model_correct (df : List Transaction) (y m : Nat)
    (hne : monthlyFilter df y m ≠ []) :
    (∀ p ∈ BRANCHES,
      lookupA (generate_monthly_profit_dataframe df y m) p.2.short =
        some (profitRowFor (monthlyFilter df y m) p.2)) ∧
    (∀ p ∈ BRANCHES,
      (profitRowFor (monthlyFilter df y m) p.2).revenue =
        (((monthlyFilter df y m).filter
          (fun r => r.branch == p.2.short)).map (fun r => r.price)).sum ∧
      (profitRowFor (monthlyFilter df y m) p.2).fixed_cost =
        (p.2.operational_cost.map (fun c => c.2)).sum ∧
      (profitRowFor (monthlyFilter df y m) p.2).net_profit =
        (profitRowFor (monthlyFilter df y m) p.2).revenue -
          (profitRowFor (monthlyFilter df y m) p.2).fixed_cost -
          (profitRowFor (monthlyFilter df y m) p.2).revenue *
            p.2.commission_rate) ∧
    (∀ p ∈ BRANCHES, p.2.commission_rate = 0 →
      (profitRowFor (monthlyFilter df y m) p.2).net_profit =
        (profitRowFor (monthlyFilter df y m) p.2).revenue -
          (profitRowFor (monthlyFilter df y m) p.2).fixed_cost) ∧
    (lookupA (generate_monthly_profit_dataframe df y m) "Overall" =
      some
        { revenue :=
            (BRANCHES.map
              (fun p => (profitRowFor (monthlyFilter df y m) p.2).revenue)).sum,
          fixed_cost :=
            (BRANCHES.map
              (fun p => (profitRowFor (monthlyFilter df y m) p.2).fixed_cost)).sum,
          commission_cost :=
            (BRANCHES.map
              (fun p =>
                (profitRowFor (monthlyFilter df y m) p.2).commission_cost)).sum,
          operational_cost :=
            (BRANCHES.map
              (fun p =>
                (profitRowFor (monthlyFilter df y m) p.2).operational_cost)).sum,
          net_profit :=
            (BRANCHES.map
              (fun p =>
                (profitRowFor (monthlyFilter df y m) p.2).net_profit)).sum }) := by
  have hne' : (monthlyFilter df y m).isEmpty = false := by
    simp [List.isEmpty_iff]
    exact hne
  refine ⟨?_, ?_, ?_, ?_⟩
  · intro p hp
    unfold generate_monthly_profit_dataframe
    rw [if_neg (by simp [hne'])]
    simp only [BRANCHES, List.mem_cons, List.not_mem_nil] at hp
    rcases hp with hp | hp | hp
    · subst hp
      simp [lookupA, BRANCHES, List.find?]
    · subst hp
      simp [lookupA, BRANCHES, List.find?]
    · cases hp
  · intro p hp
    refine ⟨rfl, rfl, ?_⟩
    unfold profitRowFor
    dsimp only
    ring
  · intro p hp hc
    unfold profitRowFor
    dsimp only
    rw [hc]
    ring
  · have e1 : (("Cabang A" : String) == "Overall") = false := by decide
    have e2 : (("Cabang B" : String) == "Overall") = false := by decide
    have e3 : (("Overall" : String) == "Overall") = true := by decide
    unfold generate_monthly_profit_dataframe
    rw [if_neg (by simp [hne'])]
    simp only [BRANCHES, List.map, List.cons_append, List.nil_append,
      lookupA, List.find?, e1, e2, e3]
    simp only [Option.map_some', Option.some.injEq, ProfitRow.mk.injEq,
      List.sum_cons, List.sum_nil]
    refine ⟨?_, ?_, ?_, ?_, ?_⟩ <;>
      simp only [profitRowFor, List.map, List.sum_cons, List.sum_nil] <;>
      ring

theorem profit_model_correct_witness :
    monthlyFilter dfScenario 2026 2 ≠ [] ∧
    (∀ p ∈ BRANCHES,
      lookupA (generate_monthly_profit_dataframe dfScenario 2026 2)
          p.2.short =
        some (profitRowFor (monthlyFilter dfScenario 2026 2) p.2)) :=
  ⟨by decide, (profit_model_correct dfScenario 2026 2 (by decide)).1⟩

/-! #### Association-list lemmas (dict assignment semantics) -/

theorem lookupA_updateA_self {κ α : Type} [BEq κ] [LawfulBEq κ]
    (l : List (κ × α)) (k : κ) (v : α) :
    lookupA (updateA l k v) k = some v := by
  unfold updateA
  split
  · next hany =>
    induction l with
    | nil => simp at hany
    | cons a t ih =>
      by_cases hk : a.1 == k
      · simp [lookupA, List.find?, hk]
      · simp only [List.any_cons, Bool.or_eq_true] at hany
        rcases hany with h | h
        · simp [hk] at h
        · simp only [List.map_cons, lookupA, List.find?, hk, if_neg]
          have := ih h
          simp only [lookupA] at this
          simpa [hk] using this
  · next hany =>
    induction l with
    | nil => simp [lookupA, List.find?]
    | cons a t ih =>
      simp only [List.any_cons, Bool.or_eq_true, not_or] at hany
      have h1 : (a.1 == k) = false := by
        cases h : a.1 == k
        · rfl
        · exact absurd h hany.1
      simp only [List.cons_append, lookupA, List.find?, h1]
      have := ih (by simpa using hany.2)
      simpa [lookupA] using this

theorem lookupA_map_update {κ α : Type} [BEq κ] [LawfulBEq κ]
    (l : List (κ × α)) (k k2 : κ) (v : α) (hne : k2 ≠ k) :
    lookupA (l.map (fun p => if p.1 == k then (k, v) else p)) k2 =
      lookupA l k2 := by
  have hkk2 : (k == k2) = false := by
    simp only [beq_eq_false_iff_ne]
    exact fun h => hne h.symm
  induction l with
  | nil => rfl
  | cons a t ih =>
    by_cases hk : a.1 = k
    · have h2 : (a.1 == k2) = false := by
        simp only [beq_eq_false_iff_ne]
        rw [hk]
        exact fun h => hne h.symm
      simp only [List.map_cons, hk, beq_self_eq_true, if_pos, lookupA,
        List.find?, hkk2, h2]
      exact ih
    · have hk' : (a.1 == k) = false := by
        simpa only [beq_eq_false_iff_ne] using hk
      simp only [List.map_cons, hk', Bool.false_eq_true, if_false, lookupA,
        List.find?]
      by_cases h2 : a.1 = k2
      · simp [h2]
      · have h2' : (a.1 == k2) = false := by
          simpa only [beq_eq_false_iff_ne] using h2
        simp only [h2']
        exact ih

theorem lookupA_append_single {κ α : Type} [BEq κ] [LawfulBEq κ]
    (l : List (κ × α)) (k k2 : κ) (v : α) (hne : k2 ≠ k) :
    lookupA (l ++ [(k, v)]) k2 = lookupA l k2 := by
  have hkk2 : (k == k2) = false := by
    simp only [beq_eq_false_iff_ne]
    exact fun h => hne h.symm
  induction l with
  | nil => simp [lookupA, List.find?, hkk2]
  | cons a t ih =>
    by_cases h2 : a.1 = k2
    · simp [lookupA, List.find?, h2]
    · have h2' : (a.1 == k2) = false := by
        simpa only [beq_eq_false_iff_ne] using h2
      simp only [List.cons_append, lookupA, List.find?, h2']
      exact ih

theorem lookupA_updateA_ne {κ α : Type} [BEq κ] [LawfulBEq κ]
    (l : List (κ × α)) (k k2 : κ) (v : α) (hne : k2 ≠ k) :
    lookupA (updateA l k v) k2 = lookupA l k2 := by
  unfold updateA
  split
  · exact lookupA_map_update l k k2 v hne
  · exact lookupA_append_single l k k2 v hne

/-- C5: fresh-hit resolutions return the cached table with no fetch and no
state change; stale/missing resolutions fetch and replace the year's entry
wholesale (table and timestamp swapped as a unit, other years untouched);
and a second resolution of the same year within the TTL of the first
returns the identical table with no further fetch and no state change. -/
theorem cache_resolution_correct {Table ε : Type}
    (fetch : Nat → Except ε Table) (st : CacheState Table) (year : Nat)
    (now : Int) :
    (∀ df ts, lookupA st.transactions_cache year = some df →
      lookupA st.cache_timestamp year = some ts →
      now - ts < CACHE_DURATION →
      get_or_fetch_transactions fetch now st year = (Except.ok df, st, false)) ∧
    (∀ tbl, fetch year = Except.ok tbl → CacheMiss st year now →
      ∃ st2, get_or_fetch_transactions fetch now st year =
          (Except.ok tbl, st2, true) ∧
        lookupA st2.transactions_cache year = some tbl ∧
        lookupA st2.cache_timestamp year = some now ∧
        (∀ y2, y2 ≠ year →
          lookupA st2.transactions_cache y2 =
            lookupA st.transactions_cache y2 ∧
          lookupA st2.cache_timestamp y2 = lookupA st.cache_timestamp y2)) ∧
    (∀ t2 tbl st1 f1,
      get_or_fetch_transactions fetch now st year = (Except.ok tbl, st1, f1) →
      (∀ ts, lookupA st1.cache_timestamp year = some ts →
        t2 - ts < CACHE_DURATION) →
      get_or_fetch_transactions fetch t2 st1 year =
        (Except.ok tbl, st1, false)) := by
  refine ⟨?_, ?_, ?_⟩
  · intro df ts hdf hts hfresh
    unfold get_or_fetch_transactions
    rw [hdf, hts]
    dsimp only
    rw [if_pos hfresh]
  · intro tbl hfetch hmiss
    unfold get_or_fetch_transactions
    have hpath :
        (match lookupA st.transactions_cache year,
            lookupA st.cache_timestamp year with
          | some df, some ts =>
            if now - ts < CACHE_DURATION then some df else none
          | _, _ => none) = (none : Option Table) := by
      rcases hmiss with h | h | h
      · rw [h]
      · rw [h]
        cases lookupA st.transactions_cache year <;> rfl
      · cases hdf : lookupA st.transactions_cache year with
        | none => rfl
        | some df =>
          cases hts : lookupA st.cache_timestamp year with
          | none => rfl
          | some ts =>
            have hst := h ts hts
            dsimp only
            rw [if_neg (by omega)]
    rw [hpath]
    dsimp only
    rw [hfetch]
    refine ⟨_, rfl, ?_, ?_, ?_⟩
    · exact lookupA_updateA_self _ _ _
    · exact lookupA_updateA_self _ _ _
    · intro y2 hy2
      exact ⟨lookupA_updateA_ne _ _ _ _ hy2, lookupA_updateA_ne _ _ _ _ hy2⟩
  · intro t2 tbl st1 f1 hrun hfresh2
    unfold get_or_fetch_transactions at hrun
    rcases hdf : lookupA st.transactions_cache year with _ | df <;>
      rcases hts : lookupA st.cache_timestamp year with _ | ts <;>
      rw [hdf, hts] at hrun <;> dsimp only at hrun
    case some.some =>
      by_cases hfr : now - ts < CACHE_DURATION
      · rw [if_pos hfr] at hrun
        simp only [Prod.mk.injEq, Except.ok.injEq] at hrun
        obtain ⟨htbl, hst1, _⟩ := hrun
        subst hst1
        unfold get_or_fetch_transactions
        rw [hdf, hts]
        dsimp only
        rw [if_pos (hfresh2 ts hts), htbl]
      · rw [if_neg hfr] at hrun
        cases hfetch : fetch year with
        | error e =>
          rw [hfetch] at hrun
          simp at hrun
        | ok tb =>
          rw [hfetch] at hrun
          simp only [Prod.mk.injEq, Except.ok.injEq] at hrun
          obtain ⟨htbl, hst1, _⟩ := hrun
          subst htbl hst1
          unfold get_or_fetch_transactions
          rw [lookupA_updateA_self, lookupA_updateA_self]
          dsimp only
          rw [if_pos (hfresh2 now (lookupA_updateA_self _ _ _))]
    all_goals
      cases hfetch : fetch year with
      | error e =>
        rw [hfetch] at hrun
        simp at hrun
      | ok tb =>
        rw [hfetch] at hrun
        simp only [Prod.mk.injEq, Except.ok.injEq] at hrun
        obtain ⟨htbl, hst1, _⟩ := hrun
        subst htbl hst1
        unfold get_or_fetch_transactions
        rw [lookupA_updateA_self, lookupA_updateA_self]
        dsimp only
        rw [if_pos (hfresh2 now (lookupA_updateA_self _ _ _))]

theorem cache_resolution_correct_witness :
    ((fun _ => Except.ok ([] : List Transaction)) 2026 =
        (Except.ok ([] : List Transaction) : Except Unit (List Transaction))) ∧
      CacheMiss (⟨[], []⟩ : CacheState (List Transaction)) 2026 0 ∧
      ∃ st2,
        get_or_fetch_transactions
            (fun _ => (Except.ok [] : Except Unit (List Transaction)))
            0 (⟨[], []⟩ : CacheState (List Transaction)) 2026 =
          (Except.ok [], st2, true) ∧
        lookupA st2.transactions_cache 2026 = some [] ∧
        lookupA st2.cache_timestamp 2026 = some 0 ∧
        (∀ y2, y2 ≠ 2026 →
          lookupA st2.transactions_cache y2 =
            lookupA (⟨[], []⟩ : CacheState (List Transaction)).transactions_cache y2 ∧
          lookupA st2.cache_timestamp y2 =
            lookupA (⟨[], []⟩ : CacheState (List Transaction)).cache_timestamp y2) :=
  ⟨rfl, Or.inl rfl,
    (cache_resolution_correct
      (fun _ => (Except.ok [] : Except Unit (List Transaction)))
      ⟨[], []⟩ 2026 0).2.1 [] rfl (Or.inl rfl)⟩

/-- C7: when resolution has to go to the store and the fetch raises, the
error propagates, no (possibly stale) cached table is returned, and the
cache and timestamp dictionaries are left unchanged. -/
theorem store_failure_propagates {Table ε : Type}
    (fetch : Nat → Except ε Table) (st : CacheState Table) (year : Nat)
    (now : Int) (e : ε)
    (hfetch : fetch year = Except.error e)
    (hmiss : CacheMiss st year now) :
    get_or_fetch_transactions fetch now st year = (Except.error e, st, true) := by
  unfold get_or_fetch_transactions
  have hpath :
      (match lookupA st.transactions_cache year,
          lookupA st.cache_timestamp year with
        | some df, some ts =>
          if now - ts < CACHE_DURATION then some df else none
        | _, _ => none) = (none : Option Table) := by
    rcases hmiss with h | h | h
    · rw [h]
    · rw [h]
      cases lookupA st.transactions_cache year <;> rfl
    · cases hdf : lookupA st.transactions_cache year with
      | none => rfl
      | some df =>
        cases hts : lookupA st.cache_timestamp year with
        | none => rfl
        | some ts =>
          have hst := h ts hts
          dsimp only
          rw [if_neg (by omega)]
  rw [hpath]
  dsimp only
  rw [hfetch]

theorem store_failure_propagates_witness :
    ((fun _ => Except.error () : Nat → Except Unit (List Transaction)) 2026 =
        Except.error ()) ∧
      CacheMiss (⟨[], []⟩ : CacheState (List Transaction)) 2026 0 ∧
      get_or_fetch_transactions
          (fun _ => Except.error () : Nat → Except Unit (List Transaction))
          0 (⟨[], []⟩ : CacheState (List Transaction)) 2026 =
        (Except.error (), ⟨[], []⟩, true) :=
  ⟨rfl, Or.inl rfl,
    store_failure_propagates (fun _ => Except.error ()) ⟨[], []⟩ 2026 0 ()
      rfl (Or.inl rfl)⟩

theorem lookup_foldl_update (ns : List String) (v : List String)
    (x : String) :
    ∀ m : List (String × List String),
      lookupA (ns.foldl (fun m2 nl => updateA m2 nl v) m) x =
        if x ∈ ns then some v else lookupA m x := by
  induction ns with
  | nil => intro m; simp
  | cons k ns ih =>
    intro m
    rw [List.foldl_cons, ih]
    by_cases hx : x ∈ ns
    · rw [if_pos hx, if_pos (List.mem_cons_of_mem k hx)]
    · rw [if_neg hx]
      by_cases hxk : x = k
      · subst hxk
        rw [if_pos (List.mem_cons_self x ns), lookupA_updateA_self]
      · rw [if_neg (by
          intro hmem
          rcases List.mem_cons.mp hmem with h | h
          · exact hxk h
          · exact hx h)]
        exact lookupA_updateA_ne m k x v hxk

/-- Names belonging to none of the capsters in `cs` pass through the
alias-map construction unchanged. -/
theorem lookup_build_notmem (x : String) :
    ∀ (cs : List Capster) (m : List (String × List String)),
      (∀ c2 ∈ cs, x ∉ c2.all_names.map strLower) →
      lookupA (cs.foldl
        (fun m c =>
          (c.all_names.map strLower).foldl
            (fun m2 nl => updateA m2 nl (c.all_names.map strLower)) m)
        m) x = lookupA m x := by
  intro cs
  induction cs with
  | nil => intro m _; rfl
  | cons c0 cs ih =>
    intro m hnot
    rw [List.foldl_cons,
      ih _ (fun c2 hc2 => hnot c2 (List.mem_cons_of_mem c0 hc2)),
      lookup_foldl_update]
    rw [if_neg (hnot c0 (List.mem_cons_self c0 cs))]

theorem lookup_build_mem (x : String) (c : Capster)
    (hx : x ∈ c.all_names.map strLower) :
    ∀ (cs : List Capster) (m : List (String × List String)),
      cs.Pairwise (fun a b => ∀ n, n ∈ a.all_names.map strLower →
        n ∉ b.all_names.map strLower) →
      c ∈ cs →
      lookupA (cs.foldl
        (fun m c =>
          (c.all_names.map strLower).foldl
            (fun m2 nl => updateA m2 nl (c.all_names.map strLower)) m)
        m) x = some (c.all_names.map strLower) := by
  intro cs
  induction cs with
  | nil => intro m _ hc; cases hc
  | cons c0 cs ih =>
    intro m hdisj hc
    rw [List.foldl_cons]
    rcases List.mem_cons.mp hc with hceq | hcmem
    · subst hceq
      rw [lookup_build_notmem x cs _
        (fun c2 hc2 => (List.pairwise_cons.mp hdisj).1 c2 hc2 x hx),
        lookup_foldl_update]
      rw [if_pos hx]
    · exact ih _ (List.pairwise_cons.mp hdisj).2 hcmem

/-- With globally distinct (case-folded) names, `get_name_alias_map` maps
each known name of a capster to that capster's full name list. -/
theorem lookup_alias_map (capsters : List Capster)
    (hdisj : capsters.Pairwise
      (fun a b => ∀ n, n ∈ lowNames a → n ∉ lowNames b))
    (c : Capster) (hc : c ∈ capsters) (x : String) (hx : x ∈ lowNames c) :
    lookupA (get_name_alias_map capsters) x = some (lowNames c) := by
  unfold get_name_alias_map
  simp only [lowNames] at hdisj hx ⊢
  exact lookup_build_mem x c hx capsters [] hdisj hc

theorem contains_cons_of_mem (a : String) (l : List String)
    (ha : a ∈ l) (x : String) :
    (a :: l).contains x = l.contains x := by
  by_cases hx : x = a
  · subst hx
    rw [List.contains_cons, beq_self_eq_true, Bool.true_or]
    exact (List.elem_eq_true_of_mem ha).symm
  · have hxa : (x == a) = false := by
      simpa only [beq_eq_false_iff_ne] using hx
    rw [List.contains_cons, hxa, Bool.false_or]

/-- C9: with globally distinct case-folded names, filtering the transaction
table by any known name of a capster (canonical or alias) selects the same
rows — and hence the same revenue aggregate. -/
theorem alias_equivalence (capsters : List Capster) (df : List Transaction)
    (c : Capster) (hc : c ∈ capsters)
    (hdisj : capsters.Pairwise
      (fun a b => ∀ n, n ∈ lowNames a → n ∉ lowNames b))
    (n1 n2 : String) (h1 : n1 ∈ c.all_names) (h2 : n2 ∈ c.all_names) :
    filter_by_capster (get_name_alias_map capsters) df n1 =
      filter_by_capster (get_name_alias_map capsters) df n2 ∧
    ((filter_by_capster (get_name_alias_map capsters) df n1).map
      (fun r => r.price)).sum =
      ((filter_by_capster (get_name_alias_map capsters) df n2).map
        (fun r => r.price)).sum := by
  have key : ∀ n, n ∈ c.all_names →
      filter_by_capster (get_name_alias_map capsters) df n =
        df.filter (fun r => (lowNames c).contains (strLower r.capster)) := by
    intro n hn
    have hmem : strLower n ∈ lowNames c := List.mem_map_of_mem strLower hn
    unfold filter_by_capster
    dsimp only
    rw [lookup_alias_map capsters hdisj c hc (strLower n) hmem]
    simp only [Option.getD_some]
    apply List.filter_congr
    intro r _
    exact contains_cons_of_mem (strLower n) (lowNames c) hmem (strLower r.capster)
  have heq : filter_by_capster (get_name_alias_map capsters) df n1 =
      filter_by_capster (get_name_alias_map capsters) df n2 := by
    rw [key n1 h1, key n2 h2]
  exact ⟨heq, by rw [heq]⟩

theorem alias_equivalence_witness :
    (⟨"Zidan", 1, "timingemma"⟩ : Capster) ∈
        [(⟨"Zidan", 1, "timingemma"⟩ : Capster), ⟨"Rafi", 2, ""⟩] ∧
    filter_by_capster
        (get_name_alias_map [⟨"Zidan", 1, "timingemma"⟩, ⟨"Rafi", 2, ""⟩])
        [{ date := ⟨2025, 3, 1⟩, capster := "timingemma", service := "Cukur",
           price := 35000, payment_method := "cash", branch := "Cabang A" },
         { date := ⟨2026, 1, 5⟩, capster := "Zidan", service := "Cukur",
           price := 40000, payment_method := "cash", branch := "Cabang A" },
         { date := ⟨2026, 1, 6⟩, capster := "Rafi", service := "Cukur",
           price := 45000, payment_method := "cash", branch := "Cabang B" }]
        "Zidan" =
      filter_by_capster
        (get_name_alias_map [⟨"Zidan", 1, "timingemma"⟩, ⟨"Rafi", 2, ""⟩])
        [{ date := ⟨2025, 3, 1⟩, capster := "timingemma", service := "Cukur",
           price := 35000, payment_method := "cash", branch := "Cabang A" },
         { date := ⟨2026, 1, 5⟩, capster := "Zidan", service := "Cukur",
           price := 40000, payment_method := "cash", branch := "Cabang A" },
         { date := ⟨2026, 1, 6⟩, capster := "Rafi", service := "Cukur",
           price := 45000, payment_method := "cash", branch := "Cabang B" }]
        "timingemma" :=
  ⟨by decide,
    (alias_equivalence [⟨"Zidan", 1, "timingemma"⟩, ⟨"Rafi", 2, ""⟩] _
      ⟨"Zidan", 1, "timingemma"⟩ (by decide)
      (by decide)
      "Zidan" "timingemma" (by decide) (by decide)).1⟩

/-- C10: every window of `get_weeks_in_month` starts on a Monday of the
requested month at 00:00:00 and ends exactly six days later at 23:59:59;
consecutive windows are contiguous (each start is the calendar day after
the previous end); and the days of the month before the month's first
Monday are contained in no window. -/
theorem weeks_in_month_invariant (y m : Nat) (hm1 : 1 ≤ m) (hm2 : m ≤ 12)
    (hy1 : 1 ≤ y) (hy2 : y ≤ 9998) :
    (∀ w ∈ get_weeks_in_month y m,
      w.start_date.weekday = 0 ∧ w.start_date.year = y ∧
      w.start_date.month = m ∧ w.start_secs = 0 ∧
      w.end_date = w.start_date.addDays 6 ∧ w.end_secs = 86399) ∧
    List.Chain' (fun a b => b.start_date = a.end_date.addDays 1)
      (get_weeks_in_month y m) ∧
    (∀ d : Date, d.year = y → d.month = m →
      d.toordinal < (get_first_monday_of_month y m).toordinal →
      ∀ w ∈ get_weeks_in_month y m,
        ¬(w.start_date.toordinal ≤ d.toordinal ∧
          d.toordinal ≤ w.end_date.toordinal)) := by
  obtain ⟨hwd, hyr, hmo, hdy⟩ := first_monday_spec y m hm1 hm2 hy1 (by omega)
  have hdim := daysInMonth_pos y m hm1 hm2
  have hmod : (7 - (Date.mk y m 1).weekday) % 7 < 7 := Nat.mod_lt _ (by omega)
  have hv : (get_first_monday_of_month y m).Valid := by
    refine ⟨?_, ?_, ?_, ?_, ?_, ?_⟩
    · rw [hyr]; omega
    · rw [hyr]; omega
    · rw [hmo]; omega
    · rw [hmo]; omega
    · rw [hdy]; omega
    · rw [hdy, hyr, hmo]; omega
  obtain ⟨invA, invB, invC, invD, invE⟩ :=
    weeks_loop_invariant y m hm1 hm2 hy2 8 (get_first_monday_of_month y m) 1
      hv hwd (fun _ => hyr)
  refine ⟨?_, invC, ?_⟩
  · intro w hw
    obtain ⟨o1, o2, o3, o4, o5, o6⟩ := invA w hw
    exact ⟨o1, o2, o3, o4, o5, o6⟩
  · intro d _ _ hdlt w hw hcontra
    have := invD w hw
    omega

theorem weeks_in_month_invariant_witness :
    (1 ≤ 1 ∧ 1 ≤ 12 ∧ 1 ≤ 2026 ∧ 2026 ≤ 9998) ∧
    List.Chain' (fun a b => b.start_date = a.end_date.addDays 1)
      (get_weeks_in_month 2026 1) :=
  ⟨by decide,
    (weeks_in_month_invariant 2026 1 (by decide) (by decide) (by decide)
      (by decide)).2.1⟩

/-- C3 counterexample: in January 2026 the 1st is not a Monday, yet week 1
does not start on day 1 as the claim requires — the listed windows begin at
the first Monday, January 5th, so there is no leading partial week. -/
theorem weeks_no_partial_week_counterexample :
    (Date.mk 2026 1 1).weekday ≠ 0 ∧
    ((get_weeks_in_month 2026 1).map (fun w => w.start_date)) =
      [⟨2026, 1, 5⟩, ⟨2026, 1, 12⟩, ⟨2026, 1, 19⟩, ⟨2026, 1, 26⟩] ∧
    (∀ w ∈ get_weeks_in_month 2026 1, w.start_date ≠ ⟨2026, 1, 1⟩) := by
  decide

/-- C3 (amended): windows span Monday 00:00:00 to Sunday 23:59:59; if day 1
of the month is a Monday, week 1 starts there, and otherwise week 1 starts
at the first Monday after day 1 (`1 + (7 - weekday)` of day 1), with no
leading partial week; subsequent weeks are consecutive Monday–Sunday
spans. -/
theorem weeks_monday_anchored (y m : Nat) (hm1 : 1 ≤ m) (hm2 : m ≤ 12)
    (hy1 : 1 ≤ y) (hy2 : y ≤ 9998) :
    get_weeks_in_month y m ≠ [] ∧
    (∀ w, (get_weeks_in_month y m).head? = some w →
      w.start_date = get_first_monday_of_month y m ∧ w.week_num = 1) ∧
    ((Date.mk y m 1).weekday = 0 →
      get_first_monday_of_month y m = ⟨y, m, 1⟩) ∧
    ((Date.mk y m 1).weekday ≠ 0 →
      (get_first_monday_of_month y m).day =
        1 + (7 - (Date.mk y m 1).weekday) ∧
      1 < (get_first_monday_of_month y m).day) ∧
    (∀ w ∈ get_weeks_in_month y m,
      w.start_date.weekday = 0 ∧ w.end_date = w.start_date.addDays 6 ∧
      w.start_secs = 0 ∧ w.end_secs = 86399) := by
  obtain ⟨hwd, hyr, hmo, hdy⟩ := first_monday_spec y m hm1 hm2 hy1 (by omega)
  have hdim := daysInMonth_pos y m hm1 hm2
  have hwdlt : (Date.mk y m 1).weekday < 7 := Nat.mod_lt _ (by omega)
  have hmod : (7 - (Date.mk y m 1).weekday) % 7 < 7 := Nat.mod_lt _ (by omega)
  have hv : (get_first_monday_of_month y m).Valid := by
    refine ⟨?_, ?_, ?_, ?_, ?_, ?_⟩
    · rw [hyr]; omega
    · rw [hyr]; omega
    · rw [hmo]; omega
    · rw [hmo]; omega
    · rw [hdy]; omega
    · rw [hdy, hyr, hmo]; omega
  obtain ⟨invA, invB, invC, invD, invE⟩ :=
    weeks_loop_invariant y m hm1 hm2 hy2 8 (get_first_monday_of_month y m) 1
      hv hwd (fun _ => hyr)
  refine ⟨?_, ?_, ?_, ?_, ?_⟩
  · rcases invE hmo with h | h
    · exact h
    · cases h
  · exact invB
  · intro h0
    have : (get_first_monday_of_month y m).day = 1 := by
      rw [hdy, h0]
    rcases hfm : get_first_monday_of_month y m with ⟨fy, fm2, fd⟩
    rw [hfm] at hyr hmo this
    simp only at hyr hmo this
    rw [hyr, hmo, this]
  · intro h0
    constructor
    · rw [hdy]
      congr 1
      omega
    · rw [hdy]
      omega
  · intro w hw
    obtain ⟨o1, _, _, o4, o5, o6⟩ := invA w hw
    exact ⟨o1, o5, o4, o6⟩

theorem weeks_monday_anchored_witness :
    ((Date.mk 2026 1 1).weekday ≠ 0) ∧
    (get_first_monday_of_month 2026 1).day = 1 + (7 - (Date.mk 2026 1 1).weekday) :=
  ⟨by decide,
    ((weeks_monday_anchored 2026 1 (by decide) (by decide) (by decide)
      (by decide)).2.2.2.1 (by decide)).1⟩

/-! #### Stage lemmas for `_keyword_fallback` -/

theorem report_type_stage_fields (b : QueryResult) (lq : List Char) :
    (report_type_stage b lq).specific_dates = b.specific_dates ∧
    (report_type_stage b lq).specific_date = b.specific_date ∧
    (report_type_stage b lq).date_end = b.date_end ∧
    (report_type_stage b lq).specific_month = b.specific_month ∧
    (report_type_stage b lq).specific_year = b.specific_year ∧
    (report_type_stage b lq).timeframe_str = b.timeframe_str ∧
    (report_type_stage b lq).report_type.isSome = true ∧
    (report_type_stage b lq).metrics ≠ [] := by
  unfold report_type_stage
  split_ifs <;> exact ⟨rfl, rfl, rfl, rfl, rfl, rfl, rfl, by simp⟩

theorem entities_stage_fields (cl : List String) (lq : List Char)
    (q : QueryResult) :
    (entities_stage cl lq q).specific_dates = q.specific_dates ∧
    (entities_stage cl lq q).specific_date = q.specific_date ∧
    (entities_stage cl lq q).date_end = q.date_end ∧
    (entities_stage cl lq q).specific_month = q.specific_month ∧
    (entities_stage cl lq q).specific_year = q.specific_year ∧
    (entities_stage cl lq q).timeframe_str = q.timeframe_str ∧
    (entities_stage cl lq q).report_type = q.report_type ∧
    (entities_stage cl lq q).metric = q.metric ∧
    (entities_stage cl lq q).metrics = q.metrics :=
  ⟨rfl, rfl, rfl, rfl, rfl, rfl, rfl, rfl, rfl⟩

theorem timeframe_stage_report_type (ny : Nat) (lq : List Char)
    (q : QueryResult) :
    (timeframe_stage ny lq q).report_type = q.report_type ∧
    (timeframe_stage ny lq q).metric = q.metric ∧
    (timeframe_stage ny lq q).metrics = q.metrics := by
  unfold timeframe_stage
  dsimp only
  split
  · exact ⟨rfl, rfl, rfl⟩
  · split
    · exact ⟨rfl, rfl, rfl⟩
    · split
      · exact ⟨rfl, rfl, rfl⟩
      · split
        · exact ⟨rfl, rfl, rfl⟩
        · split
          · exact ⟨rfl, rfl, rfl⟩
          · exact ⟨rfl, rfl, rfl⟩

/-- C8 (amended): the keyword fallback always produces a valid intent —
report type defaults to `general` and the time window to `bulan ini` — so
`is_valid()` is true for every fallback result, and the handler's
fetch-skipping branch (taken exactly when `is_valid()` is false) can never
be triggered by a fallback intent. -/
theorem keyword_fallback_always_valid (cl : List String) (ny : Nat)
    (uq : String) :
    (keyword_fallback cl ny uq).is_valid = true ∧
    (keyword_fallback cl ny uq).is_valid_query = true ∧
    (keyword_fallback cl ny uq).report_type.isSome = true ∧
    process_query_attempts_fetch (keyword_fallback cl ny uq) = true := by
  have hrt : (keyword_fallback cl ny uq).report_type.isSome = true := by
    show ((entities_stage cl (uq.toList.map Char.toLower)
      (timeframe_stage ny (uq.toList.map Char.toLower)
        (report_type_stage { original_query := uq }
          (uq.toList.map Char.toLower)))).report_type).isSome = true
    rw [(entities_stage_fields _ _ _).2.2.2.2.2.2.1,
      (timeframe_stage_report_type _ _ _).1]
    exact (report_type_stage_fields _ _).2.2.2.2.2.2.1
  have hv : (keyword_fallback cl ny uq).is_valid = true := by
    unfold QueryResult.is_valid
    rw [hrt]
    simp
  refine ⟨hv, ?_, hrt, hv⟩
  show (keyword_fallback cl ny uq).is_valid_query = true
  have : (keyword_fallback cl ny uq).is_valid_query =
      (entities_stage cl (uq.toList.map Char.toLower) (timeframe_stage ny
        (uq.toList.map Char.toLower)
        (report_type_stage { original_query := uq }
          (uq.toList.map Char.toLower)))).is_valid := rfl
  rw [this]
  have hv2 := hv
  unfold keyword_fallback at hv2
  exact hv2

/-- C8 counterexample: the query `"zzz"` contains no report-type keyword,
no metric keyword and no date signal of any form, yet the fallback intent
is valid (`is_valid()` returns `True`), contradicting the claim that such
a request yields an invalid intent. -/
theorem keyword_fallback_zzz_valid :
    (keyword_fallback [] 2026 "zzz").is_valid = true ∧
    (keyword_fallback [] 2026 "zzz").report_type = some "general" ∧
    (keyword_fallback [] 2026 "zzz").timeframe_str = some "bulan ini" ∧
    parse_multiple_dates 2026 ("zzz".toList) = [] ∧
    parse_date_range 2026 ("zzz".toList) = none ∧
    parse_specific_date 2026 ("zzz".toList) = none ∧
    parse_specific_month 2026 ("zzz".toList) = none ∧
    relative_keyword ("zzz".toList) = none := by
  decide

/-- C1: the keyword fallback resolves exactly one time-window form, in the
precedence order discrete-dates > date-range > single-date > month >
relative-keyword > default `"bulan ini"`: each conjunct states that when a
higher-precedence parser matches, its fields are populated and every
lower-precedence field stays empty, and that when nothing matches the
window is `"bulan ini"`. -/
theorem keyword_fallback_precedence (cl : List String) (ny : Nat)
    (uq : String) :
    (parse_multiple_dates ny (uq.toList.map Char.toLower) ≠ [] →
      (keyword_fallback cl ny uq).specific_dates =
        parse_multiple_dates ny (uq.toList.map Char.toLower) ∧
      (keyword_fallback cl ny uq).specific_date = none ∧
      (keyword_fallback cl ny uq).date_end = none ∧
      (keyword_fallback cl ny uq).specific_month = none) ∧
    (parse_multiple_dates ny (uq.toList.map Char.toLower) = [] →
      ∀ s e, parse_date_range ny (uq.toList.map Char.toLower) = some (s, e) →
      (keyword_fallback cl ny uq).specific_dates = [] ∧
      (keyword_fallback cl ny uq).specific_date = some s ∧
      (keyword_fallback cl ny uq).date_end = some e ∧
      (keyword_fallback cl ny uq).specific_month = none) ∧
    (parse_multiple_dates ny (uq.toList.map Char.toLower) = [] →
      parse_date_range ny (uq.toList.map Char.toLower) = none →
      ∀ d, parse_specific_date ny (uq.toList.map Char.toLower) = some d →
      (keyword_fallback cl ny uq).specific_dates = [] ∧
      (keyword_fallback cl ny uq).specific_date = some d ∧
      (keyword_fallback cl ny uq).date_end = none ∧
      (keyword_fallback cl ny uq).specific_month = none) ∧
    (parse_multiple_dates ny (uq.toList.map Char.toLower) = [] →
      parse_date_range ny (uq.toList.map Char.toLower) = none →
      parse_specific_date ny (uq.toList.map Char.toLower) = none →
      ∀ mn yn,
        parse_specific_month ny (uq.toList.map Char.toLower) = some (mn, yn) →
      (keyword_fallback cl ny uq).specific_dates = [] ∧
      (keyword_fallback cl ny uq).specific_date = none ∧
      (keyword_fallback cl ny uq).date_end = none ∧
      (keyword_fallback cl ny uq).specific_month = some mn ∧
      (keyword_fallback cl ny uq).specific_year = some yn) ∧
    (parse_multiple_dates ny (uq.toList.map Char.toLower) = [] →
      parse_date_range ny (uq.toList.map Char.toLower) = none →
      parse_specific_date ny (uq.toList.map Char.toLower) = none →
      parse_specific_month ny (uq.toList.map Char.toLower) = none →
      (keyword_fallback cl ny uq).specific_dates = [] ∧
      (keyword_fallback cl ny uq).specific_date = none ∧
      (keyword_fallback cl ny uq).date_end = none ∧
      (keyword_fallback cl ny uq).specific_month = none ∧
      (∀ k, relative_keyword (uq.toList.map Char.toLower) = some k →
        (keyword_fallback cl ny uq).timeframe_str = some k) ∧
      (relative_keyword (uq.toList.map Char.toLower) = none →
        (keyword_fallback cl ny uq).timeframe_str = some "bulan ini")) := by
  obtain ⟨b1, b2, b3, b4, b5, b6, _, _⟩ :=
    report_type_stage_fields
      { original_query := uq } (uq.toList.map Char.toLower)
  obtain ⟨e1, e2, e3, e4, e5, e6, _, _, _⟩ :=
    entities_stage_fields cl (uq.toList.map Char.toLower)
      (timeframe_stage ny (uq.toList.map Char.toLower)
        (report_type_stage { original_query := uq }
          (uq.toList.map Char.toLower)))
  have hds : (keyword_fallback cl ny uq).specific_dates =
      (timeframe_stage ny (uq.toList.map Char.toLower)
        (report_type_stage { original_query := uq }
          (uq.toList.map Char.toLower))).specific_dates := e1
  have hsd : (keyword_fallback cl ny uq).specific_date =
      (timeframe_stage ny (uq.toList.map Char.toLower)
        (report_type_stage { original_query := uq }
          (uq.toList.map Char.toLower))).specific_date := e2
  have hde : (keyword_fallback cl ny uq).date_end =
      (timeframe_stage ny (uq.toList.map Char.toLower)
        (report_type_stage { original_query := uq }
          (uq.toList.map Char.toLower))).date_end := e3
  have hsm : (keyword_fallback cl ny uq).specific_month =
      (timeframe_stage ny (uq.toList.map Char.toLower)
        (report_type_stage { original_query := uq }
          (uq.toList.map Char.toLower))).specific_month := e4
  have hsy : (keyword_fallback cl ny uq).specific_year =
      (timeframe_stage ny (uq.toList.map Char.toLower)
        (report_type_stage { original_query := uq }
          (uq.toList.map Char.toLower))).specific_year := e5
  have hts : (keyword_fallback cl ny uq).timeframe_str =
      (timeframe_stage ny (uq.toList.map Char.toLower)
        (report_type_stage { original_query := uq }
          (uq.toList.map Char.toLower))).timeframe_str := e6
  rw [hds, hsd, hde, hsm, hsy, hts]
  clear hds hsd hde hsm hsy hts e1 e2 e3 e4 e5 e6
  refine ⟨?_, ?_, ?_, ?_, ?_⟩
  · intro h
    cases hm : parse_multiple_dates ny (uq.toList.map Char.toLower) with
    | nil => exact absurd hm h
    | cons a t =>
      unfold timeframe_stage
      dsimp only
      rw [hm]
      exact ⟨rfl, b2, b3, b4⟩
  · intro hm s e hdr
    unfold timeframe_stage
    dsimp only
    rw [hm]
    dsimp only [List.isEmpty_nil, Bool.not_true]
    rw [if_pos rfl, hdr]
    exact ⟨b1, rfl, rfl, b4⟩
  · intro hm hdr d hd
    unfold timeframe_stage
    dsimp only
    rw [hm]
    dsimp only [List.isEmpty_nil, Bool.not_true]
    rw [if_pos rfl, hdr, hd]
    exact ⟨b1, rfl, b3, b4⟩
  · intro hm hdr hd mn yn hmn
    unfold timeframe_stage
    dsimp only
    rw [hm]
    dsimp only [List.isEmpty_nil, Bool.not_true]
    rw [if_pos rfl, hdr, hd, hmn]
    exact ⟨b1, b2, b3, rfl, rfl⟩
  · intro hm hdr hd hmn
    unfold timeframe_stage
    dsimp only
    rw [hm]
    dsimp only [List.isEmpty_nil, Bool.not_true]
    rw [if_pos rfl, hdr, hd, hmn]
    cases hk : relative_keyword (uq.toList.map Char.toLower) with
    | some k =>
      refine ⟨b1, b2, b3, b4, ?_, ?_⟩
      · intro k2 hk2
        cases hk2
        rfl
      · intro hnone
        cases hnone
    | none =>
      refine ⟨b1, b2, b3, b4, ?_, ?_⟩
      · intro k2 hk2
        cases hk2
      · intro _
        rfl

theorem keyword_fallback_precedence_witness :
    parse_multiple_dates 2026
        (("profit 1 sampai 5 februari 2026").toList.map Char.toLower) = [] ∧
    parse_date_range 2026
        (("profit 1 sampai 5 februari 2026").toList.map Char.toLower) =
      some (⟨2026, 2, 1⟩, ⟨2026, 2, 5⟩) ∧
    (keyword_fallback [] 2026 "profit 1 sampai 5 februari 2026").specific_date =
      some ⟨2026, 2, 1⟩ ∧
    (keyword_fallback [] 2026 "profit 1 sampai 5 februari 2026").date_end =
      some ⟨2026, 2, 5⟩ ∧
    (keyword_fallback [] 2026 "profit 1 sampai 5 februari 2026").specific_month =
      none :=
  ⟨by decide, by decide,
    ((keyword_fallback_precedence [] 2026
      "profit 1 sampai 5 februari 2026").2.1 (by decide) ⟨2026, 2, 1⟩
        ⟨2026, 2, 5⟩ (by decide)).2.1,
    ((keyword_fallback_precedence [] 2026
      "profit 1 sampai 5 februari 2026").2.1 (by decide) ⟨2026, 2, 1⟩
        ⟨2026, 2, 5⟩ (by decide)).2.2.1,
    ((keyword_fallback_precedence [] 2026
      "profit 1 sampai 5 februari 2026").2.1 (by decide) ⟨2026, 2, 1⟩
        ⟨2026, 2, 5⟩ (by decide)).2.2.2⟩

/-! #### Date-range soundness -/

theorem parse_date_range_short_sound (ny : Nat) (q : List Char)
    (s e : Date) (h : parse_date_range_short ny q = some (s, e)) :
    Date.le s e = true := by
  unfold parse_date_range_short at h
  cases hms : reSearch pattern_short q with
  | none => rw [hms] at h; exact absurd h (by simp)
  | some mi =>
    rw [hms] at h
    dsimp only at h
    cases hmm : month_map (String.mk ((capGet mi.caps 2).getD [])) with
    | none => rw [hmm] at h; exact absurd h (by simp)
    | some m =>
      rw [hmm] at h
      dsimp only at h
      cases h1 : tryDatetime ((capNat mi.caps 3).getD ny) m
          (digitsToNat ((capGet mi.caps 0).getD [])) with
      | none =>
        rw [h1] at h
        exact absurd h (by
          cases tryDatetime ((capNat mi.caps 3).getD ny) m
            (digitsToNat ((capGet mi.caps 1).getD [])) <;> simp)
      | some s1 =>
        rw [h1] at h
        cases h2 : tryDatetime ((capNat mi.caps 3).getD ny) m
            (digitsToNat ((capGet mi.caps 1).getD [])) with
        | none => rw [h2] at h; exact absurd h (by simp)
        | some e1 =>
          rw [h2] at h
          dsimp only at h
          split at h
          · next hle =>
            cases h
            exact hle
          · exact absurd h (by simp)

/-- C6: whatever range `_parse_date_range` returns satisfies
`start ≤ end` — an inverted pair never produces a range (neither from the
two-full-dates pattern nor from the same-month shorthand). -/
theorem parse_date_range_sound (ny : Nat) (q : List Char) (s e : Date)
    (h : parse_date_range ny q = some (s, e)) :
    Date.le s e = true := by
  unfold parse_date_range at h
  dsimp only at h
  cases hms : reSearch pattern_full q with
  | none =>
    rw [hms] at h
    exact parse_date_range_short_sound ny q s e h
  | some mi =>
    rw [hms] at h
    dsimp only at h
    cases hm1 : month_map (String.mk ((capGet mi.caps 1).getD [])) with
    | none =>
      rw [hm1] at h
      dsimp only at h
      exact parse_date_range_short_sound ny q s e h
    | some m1 =>
      rw [hm1] at h
      try dsimp only at h
      cases hm2 : month_map (String.mk ((capGet mi.caps 4).getD [])) with
      | none =>
        rw [hm2] at h
        exact parse_date_range_short_sound ny q s e h
      | some m2 =>
        rw [hm2] at h
        dsimp only at h
        cases h1 : tryDatetime
            (match capNat mi.caps 2 with
              | some y => y
              | none => (capNat mi.caps 5).getD ny) m1
            (digitsToNat ((capGet mi.caps 0).getD [])) with
        | none =>
          rw [h1] at h
          try dsimp only at h
          exact parse_date_range_short_sound ny q s e h
        | some s1 =>
          rw [h1] at h
          try dsimp only at h
          cases h2 : tryDatetime
              ((capNat mi.caps 5).getD
                (match capNat mi.caps 2 with
                  | some y => y
                  | none => (capNat mi.caps 5).getD ny)) m2
              (digitsToNat ((capGet mi.caps 3).getD [])) with
          | none =>
            rw [h2] at h
            exact parse_date_range_short_sound ny q s e h
          | some e1 =>
            rw [h2] at h
            dsimp only at h
            split at h
            · next hle =>
              cases h
              exact hle
            · exact parse_date_range_short_sound ny q s e h

theorem parse_date_range_sound_witness :
    parse_date_range 2026 (("1 sampai 5 februari 2026").toList) =
      some (⟨2026, 2, 1⟩, ⟨2026, 2, 5⟩) ∧
    Date.le ⟨2026, 2, 1⟩ ⟨2026, 2, 5⟩ = true :=
  ⟨by decide,
    parse_date_range_sound 2026 (("1 sampai 5 februari 2026").toList)
      ⟨2026, 2, 1⟩ ⟨2026, 2, 5⟩ (by decide)⟩

theorem fillYears_cons (ny : Nat) (m : MatchInfo) (rest : List MatchInfo)
    (acc : Option Nat) :
    fillYears ny (m :: rest) acc =
      (match month_map (String.mk ((capGet m.caps 1).getD [])) with
      | none => fillYears ny rest acc
      | some mn =>
        match capNat m.caps 2 with
        | some ys =>
          match tryDatetime ys mn (digitsToNat ((capGet m.caps 0).getD []))
          with
          | some dt => dt :: fillYears ny rest (some ys)
          | none => fillYears ny rest (some ys)
        | none =>
          match tryDatetime
              (match acc with
                | some ly => if ly = 0 then ny else ly
                | none => ny) mn
              (digitsToNat ((capGet m.caps 0).getD [])) with
          | some dt => dt :: fillYears ny rest acc
          | none => fillYears ny rest acc) := rfl

theorem lastYAfter_cons (acc : Option Nat) (m : MatchInfo)
    (rest : List MatchInfo) :
    lastYAfter acc (m :: rest) =
      (match month_map (String.mk ((capGet m.caps 1).getD [])) with
      | none => lastYAfter acc rest
      | some _ =>
        match capNat m.caps 2 with
        | some ys => lastYAfter (some ys) rest
        | none => lastYAfter acc rest) := rfl

theorem fillYears_append (ny : Nat) (l2 : List MatchInfo) :
    ∀ (l1 : List MatchInfo) (acc : Option Nat),
      fillYears ny (l1 ++ l2) acc =
        fillYears ny l1 acc ++ fillYears ny l2 (lastYAfter acc l1) := by
  intro l1
  induction l1 with
  | nil => intro acc; rfl
  | cons m l1 ih =>
    intro acc
    rw [List.cons_append, fillYears_cons ny m (l1 ++ l2) acc,
      fillYears_cons ny m l1 acc, lastYAfter_cons acc m l1]
    cases hmm : month_map (String.mk ((capGet m.caps 1).getD [])) with
    | none => dsimp only; exact ih acc
    | some mn =>
      dsimp only
      cases hy : capNat m.caps 2 with
      | some ys =>
        dsimp only
        cases tryDatetime ys mn (digitsToNat ((capGet m.caps 0).getD []))
        with
        | some dt => dsimp only; rw [ih (some ys)]; rfl
        | none => dsimp only; exact ih (some ys)
      | none =>
        dsimp only
        cases tryDatetime
            (match acc with
              | some ly => if ly = 0 then ny else ly
              | none => ny) mn
            (digitsToNat ((capGet m.caps 0).getD [])) with
        | some dt => dsimp only; rw [ih acc]; rfl
        | none => dsimp only; exact ih acc

theorem lastYAfter_append (l2 : List MatchInfo) :
    ∀ (l1 : List MatchInfo) (acc : Option Nat),
      lastYAfter acc (l1 ++ l2) = lastYAfter (lastYAfter acc l1) l2 := by
  intro l1
  induction l1 with
  | nil => intro acc; rfl
  | cons m l1 ih =>
    intro acc
    rw [List.cons_append, lastYAfter_cons acc m (l1 ++ l2),
      lastYAfter_cons acc m l1]
    cases hmm : month_map (String.mk ((capGet m.caps 1).getD [])) with
    | none => dsimp only; exact ih acc
    | some mn =>
      dsimp only
      cases hy : capNat m.caps 2 with
      | some ys => dsimp only; exact ih (some ys)
      | none => dsimp only; exact ih acc

/-- After processing `rest` in reverse (right-to-left), `last_year` holds
the explicit year of the leftmost match of `rest` that has one (and a
resolvable month), or the initial state if there is none — i.e. the
"nearest explicit year to the right" of a match sitting directly left of
`rest`. -/
theorem lastYAfter_reverse (rest : List MatchInfo) :
    ∀ acc, lastYAfter acc rest.reverse =
      (match rest.find?
          (fun m2 => monthOk m2 && (capNat m2.caps 2).isSome) with
        | some m2 => some ((capNat m2.caps 2).getD 0)
        | none => acc) := by
  induction rest with
  | nil => intro acc; rfl
  | cons r rs ih =>
    intro acc
    rw [List.reverse_cons, lastYAfter_append, ih, List.find?_cons]
    cases hp : monthOk r && (capNat r.caps 2).isSome with
    | true =>
      dsimp only
      simp only [Bool.and_eq_true] at hp
      obtain ⟨hmo, hys⟩ := hp
      unfold monthOk at hmo
      rw [lastYAfter_cons]
      cases hmm : month_map (String.mk ((capGet r.caps 1).getD [])) with
      | none => rw [hmm] at hmo; cases hmo
      | some mn =>
        dsimp only
        cases hy : capNat r.caps 2 with
        | none => rw [hy] at hys; cases hys
        | some ys =>
          rfl
    | false =>
      dsimp only
      rw [lastYAfter_cons]
      cases hmm : month_map (String.mk ((capGet r.caps 1).getD [])) with
      | none => rfl
      | some mn =>
        dsimp only
        cases hy : capNat r.caps 2 with
        | some ys =>
          exfalso
          have hA : monthOk r = true := by unfold monthOk; rw [hmm]; rfl
          have hB : (capNat r.caps 2).isSome = true := by rw [hy]; rfl
          rw [hA, hB] at hp
          cases hp
        | none => rfl

theorem specFillAcc_cons (ny : Nat) (acc : Option Nat) (m : MatchInfo)
    (rest : List MatchInfo) :
    specFillAcc ny acc (m :: rest) =
      (match month_map (String.mk ((capGet m.caps 1).getD [])) with
      | none => specFillAcc ny acc rest
      | some mn =>
        match tryDatetime (specYearAcc ny acc m rest) mn
            (digitsToNat ((capGet m.caps 0).getD [])) with
        | some dt => dt :: specFillAcc ny acc rest
        | none => specFillAcc ny acc rest) := rfl

/-- The right-to-left year-propagation loop, read back in text order,
computes exactly the spec's nearest-explicit-year-to-the-right rule. -/
theorem fillYears_reverse_spec (ny : Nat) :
    ∀ (ms : List MatchInfo) (acc : Option Nat),
      (fillYears ny ms.reverse acc).reverse = specFillAcc ny acc ms := by
  intro ms
  induction ms with
  | nil => intro acc; rfl
  | cons m rest ih =>
    intro acc
    rw [List.reverse_cons, fillYears_append ny [m] rest.reverse acc,
      List.reverse_append, ih acc,
      fillYears_cons ny m [] (lastYAfter acc rest.reverse),
      lastYAfter_reverse rest acc, specFillAcc_cons]
    cases hmm : month_map (String.mk ((capGet m.caps 1).getD [])) with
    | none => dsimp only; rfl
    | some mn =>
      dsimp only
      unfold specYearAcc
      cases hy : capNat m.caps 2 with
      | some ys =>
        dsimp only
        cases tryDatetime ys mn (digitsToNat ((capGet m.caps 0).getD []))
        with
        | some dt => rfl
        | none => rfl
      | none =>
        dsimp only
        cases hf : rest.find?
            (fun m2 => monthOk m2 && (capNat m2.caps 2).isSome) with
        | some m2 =>
          dsimp only
          cases tryDatetime
              (if (capNat m2.caps 2).getD 0 = 0 then ny
                else (capNat m2.caps 2).getD 0) mn
              (digitsToNat ((capGet m.caps 0).getD [])) with
          | some dt => rfl
          | none => rfl
        | none =>
          dsimp only
          cases acc with
          | some ly =>
            dsimp only
            cases tryDatetime (if ly = 0 then ny else ly) mn
                (digitsToNat ((capGet m.caps 0).getD [])) with
            | some dt => rfl
            | none => rfl
          | none =>
            dsimp only
            cases tryDatetime ny mn
                (digitsToNat ((capGet m.caps 0).getD [])) with
            | some dt => rfl
            | none => rfl

/-! #### Sortedness of `sortDates` -/

theorem dateLe_trans (a b c : Date) (h1 : Date.le a b = true)
    (h2 : Date.le b c = true) : Date.le a c = true := by
  unfold Date.le at *
  simp only [Bool.or_eq_true, Bool.and_eq_true, beq_iff_eq,
    decide_eq_true_eq] at *
  omega

theorem dateLe_total (a b : Date) (h : ¬ Date.le a b = true) :
    Date.le b a = true := by
  unfold Date.le at *
  simp only [Bool.or_eq_true, Bool.and_eq_true, beq_iff_eq,
    decide_eq_true_eq] at *
  omega

theorem insertDate_perm (x : Date) (l : List Date) :
    (insertDate x l).Perm (x :: l) := by
  induction l with
  | nil => exact List.Perm.refl _
  | cons y ys ih =>
    unfold insertDate
    split
    · exact List.Perm.refl _
    · exact List.Perm.trans (ih.cons y) (List.Perm.swap x y ys)

theorem sortDates_perm (l : List Date) : (sortDates l).Perm l := by
  induction l with
  | nil => exact List.Perm.refl _
  | cons x xs ih =>
    show (insertDate x (sortDates xs)).Perm (x :: xs)
    exact (insertDate_perm x (sortDates xs)).trans (ih.cons x)

theorem sorted_insertDate (x : Date) (l : List Date)
    (hl : List.Sorted (fun a b => Date.le a b = true) l) :
    List.Sorted (fun a b => Date.le a b = true) (insertDate x l) := by
  induction l with
  | nil => simp [insertDate]
  | cons y ys ih =>
    unfold insertDate
    split
    · next hxy =>
      refine List.Pairwise.cons ?_ hl
      intro b hb
      rcases List.mem_cons.mp hb with rfl | hb
      · exact hxy
      · exact dateLe_trans x y b hxy ((List.pairwise_cons.mp hl).1 b hb)
    · next hxy =>
      have hyx : Date.le y x = true := dateLe_total x y (by
        intro hc
        rw [hc] at hxy
        exact hxy rfl)
      have hys := (List.pairwise_cons.mp hl).2
      refine List.Pairwise.cons ?_ (ih hys)
      intro b hb
      rcases List.mem_cons.mp ((insertDate_perm x ys).mem_iff.mp hb) with
        rfl | hb2
      · exact hyx
      · exact (List.pairwise_cons.mp hl).1 b hb2

theorem sortDates_sorted (l : List Date) :
    List.Sorted (fun a b => Date.le a b = true) (sortDates l) := by
  induction l with
  | nil => simp [sortDates]
  | cons x xs ih => exact sorted_insertDate x (sortDates xs) ih

theorem sortDates_length (l : List Date) :
    (sortDates l).length = l.length :=
  (sortDates_perm l).length_eq

/-- `_parse_multiple_dates` can never produce a single date: any outcome is
either empty or has at least two entries. -/
theorem parse_multiple_dates_never_single (ny : Nat) (q : List Char) :
    (parse_multiple_dates ny q).length ≠ 1 := by
  unfold parse_multiple_dates
  dsimp only
  cases hms : reFindAll datePatternMulti q with
  | nil => simp
  | cons m0 t =>
    cases t with
    | nil => simp
    | cons m1 rest =>
      dsimp only
      split
      · simp
      · split
        · simp
        · next h2 =>
          rw [sortDates_length, List.length_reverse]
          omega

/-- C2 counterexample: the text `"15 januari 2026 dan 15 januari 2026"`
has two date matches with no range separator between them, yet the parser
returns the same date twice — the result is not de-duplicated and its
entries are not distinct. -/
theorem parse_multiple_dates_duplicates :
    2 ≤ (reFindAll datePatternMulti
      ("15 januari 2026 dan 15 januari 2026".toList)).length ∧
    multi_dates_has_sep ("15 januari 2026 dan 15 januari 2026".toList) =
      false ∧
    parse_multiple_dates 2026
        ("15 januari 2026 dan 15 januari 2026".toList) =
      [⟨2026, 1, 15⟩, ⟨2026, 1, 15⟩] ∧
    ¬ (parse_multiple_dates 2026
        ("15 januari 2026 dan 15 januari 2026".toList)).Nodup := by
  decide

/-- C2 (amended): for text whose date matches number at least two, with no
range separator between the first two, and at least two of which denote
valid calendar dates after year filling, `_parse_multiple_dates` returns a
sorted list of at least two dates — duplicates retained — equal (as a
multiset) to the matches resolved by the spec's year rule: each match
keeps its explicit year, a match without one takes the nearest explicit
year to its right, defaulting to the current year; and no input ever
yields a single date. -/
theorem parse_multiple_dates_spec (ny : Nat) (q : List Char)
    (hlen : 2 ≤ (reFindAll datePatternMulti q).length)
    (hsep : multi_dates_has_sep q = false)
    (hval : 2 ≤ (fillYears ny (reFindAll datePatternMulti q).reverse
      none).length) :
    parse_multiple_dates ny q =
      sortDates (specFillAcc ny none (reFindAll datePatternMulti q)) ∧
    2 ≤ (parse_multiple_dates ny q).length ∧
    List.Sorted (fun a b => Date.le a b = true)
      (parse_multiple_dates ny q) ∧
    (parse_multiple_dates ny q).Perm
      (specFillAcc ny none (reFindAll datePatternMulti q)) ∧
    (∀ q2, (parse_multiple_dates ny q2).length ≠ 1) := by
  have key : parse_multiple_dates ny q =
      sortDates ((fillYears ny (reFindAll datePatternMulti q).reverse
        none).reverse) := by
    unfold parse_multiple_dates
    dsimp only
    cases hms : reFindAll datePatternMulti q with
    | nil => rw [hms] at hlen; simp at hlen
    | cons m0 t =>
      cases t with
      | nil => rw [hms] at hlen; simp at hlen
      | cons m1 rest =>
        dsimp only
        have hsep2 : range_seps.any (fun s2 =>
            containsSub ((q.drop m0.mstop).take (m1.mstart - m0.mstop))
              s2.toList) = false := by
          unfold multi_dates_has_sep at hsep
          rw [hms] at hsep
          exact hsep
        rw [hsep2]
        try dsimp only
        have hv2 :
            ¬ ((fillYears ny (m0 :: m1 :: rest).reverse none).length < 2) := by
          rw [hms] at hval
          omega
        rw [if_neg hv2]
        rfl
  refine ⟨?_, ?_, ?_, ?_, parse_multiple_dates_never_single ny⟩
  · rw [key, fillYears_reverse_spec]
  · rw [key, sortDates_length, List.length_reverse]
    exact hval
  · rw [key]
    exact sortDates_sorted _
  · rw [key, fillYears_reverse_spec]
    exact sortDates_perm _

theorem parse_multiple_dates_spec_witness :
    2 ≤ (reFindAll datePatternMulti
      ("15 januari 2026, 18 januari 2026".toList)).length ∧
    multi_dates_has_sep ("15 januari 2026, 18 januari 2026".toList) =
      false ∧
    2 ≤ (parse_multiple_dates 2026
      ("15 januari 2026, 18 januari 2026".toList)).length ∧
    List.Sorted (fun a b => Date.le a b = true)
      (parse_multiple_dates 2026
        ("15 januari 2026, 18 januari 2026".toList)) :=
  ⟨by decide, by decide,
    (parse_multiple_dates_spec 2026 ("15 januari 2026, 18 januari 2026".toList)
      (by decide) (by decide) (by decide)).2.1,
    (parse_multiple_dates_spec 2026 ("15 januari 2026, 18 januari 2026".toList)
      (by decide) (by decide) (by decide)).2.2.1⟩

end CrowBot
